import Mathlib

/-!
# libfunctools: filter / map / reduce over C arrays, string split / join, character sets

A shallow embedding of `functools.c`, `str_split.c`, `str_join.c` and `str_set.c`.

Conventions of the embedding

* A byte (`char`, `unsigned char`) is a `Nat`; the NUL byte is `0`.
* A pointer that may be `NULL` is an `Option`: `none` is `NULL`, `some v` is a
  pointer to the object `v`.
* A flat buffer (`const void* input`) is the list of its bytes.
* An `ObjList` (`void**`) is the list of its slots, each slot an `Option`; a
  well-formed list ends in the sentinel slot `none`.
* Callbacks are pure functions. `malloc`, `realloc` and `strdup` always succeed,
  and sizes and lengths stay within `size_t` and `int`.
* Objects are values, not addresses: `free` has no effect on the values computed and
  is left out.
* A loop that the C code bounds by a count (`while (j < el_count)`) recurses on the
  remaining count; a loop that scans for the sentinel recurses on the slots; the
  `do ... while` loop of `str_split`, which has no such bound in the code, takes fuel.
-/

namespace Functools

/-! ## functools.c -/

/-- The function type `FilterDataFn`: `int (*)(const void*, size_t index)`. -/
abbrev FilterDataFn (α : Type) := α → Nat → Int

/-- The function type `MapDataFn`: `void* (*)(const void*, size_t index)`. -/
abbrev MapDataFn (α β : Type) := α → Nat → Option β

/-- The function type `ReduceDataFn`:
`void* (*)(const void* prev, const void* elem, size_t index)`. -/
abbrev ReduceDataFn (α β : Type) := Option β → α → Nat → Option β

/-- The object at `&ix[j * el_len]`: the `el_len` bytes of element `j` of a flat buffer. -/
def elemAt (ix : List Nat) (el_len j : Nat) : List Nat :=
  (ix.drop (j * el_len)).take el_len

/-- The `while (j < el_count)` loop of `filter_data`; `n` is `el_count - j`, and
`out` holds the `k` slots written so far. -/
def filter_data_loop (fn : FilterDataFn (List Nat)) (ix : List Nat) (el_len : Nat) :
    Nat → Nat → List (Option (List Nat)) → List (Option (List Nat))
  | 0, _, out => out
  | n + 1, j, out =>
    if fn (elemAt ix el_len j) j ≠ 0 then
      -- out[k] = malloc(el_len); memcpy(out[k], &ix[j * el_len], el_len); k++
      filter_data_loop fn ix el_len n (j + 1) (out ++ [some (elemAt ix el_len j)])
    else
      filter_data_loop fn ix el_len n (j + 1) out

/-- The function `filter_data` of functools.c. -/
def filter_data (fn : Option (FilterDataFn (List Nat))) (input : Option (List Nat))
    (el_len el_count : Nat) : Option (List (Option (List Nat))) :=
  match input, fn with
  | none, _ => none
  | _, none => none
  | some ix, some f =>
    if el_len = 0 ∨ el_count = 0 then none
    else
      let out := filter_data_loop f ix el_len el_count 0 []
      -- out[k] = NULL
      some (out ++ [none])

/-- The `while (j < el_count)` loop of `map_data`; `n` is `el_count - j`, and `out`
is the array of `el_count + 1` slots. -/
def map_data_loop {β : Type} (fn : MapDataFn (List Nat) β) (ix : List Nat) (el_len : Nat) :
    Nat → Nat → List (Option β) → List (Option β)
  | 0, _, out => out
  | n + 1, j, out =>
    -- out[j] = fn(&ix[j * el_len], j)
    map_data_loop fn ix el_len n (j + 1) (out.set j (fn (elemAt ix el_len j) j))

/-- The function `map_data` of functools.c. The slots of the array that `malloc`
returns are all written before the array is returned; they start here as `none`. -/
def map_data {β : Type} (fn : Option (MapDataFn (List Nat) β)) (input : Option (List Nat))
    (el_len el_count : Nat) : Option (List (Option β)) :=
  match input, fn with
  | none, _ => none
  | _, none => none
  | some ix, some f =>
    if el_len = 0 ∨ el_count = 0 then none
    else
      -- out = malloc(sizeof(void*) * (el_count + 1))
      let out := map_data_loop f ix el_len el_count 0 (List.replicate (el_count + 1) none)
      -- out[j] = NULL, with j = el_count after the loop
      some (out.set el_count none)

/-- The `while (j < el_count)` loop of `reduce_data`; `n` is `el_count - j`. -/
def reduce_data_loop {β : Type} (fn : ReduceDataFn (List Nat) β) (ix : List Nat) (el_len : Nat) :
    Nat → Nat → Option β → Option β
  | 0, _, init => init
  | n + 1, j, init =>
    -- tmp = fn(init, &ix[j * el_len], j); free(init); init = tmp
    let tmp := fn init (elemAt ix el_len j) j
    reduce_data_loop fn ix el_len n (j + 1) tmp

/-- The function `reduce_data` of functools.c. -/
def reduce_data {β : Type} (fn : Option (ReduceDataFn (List Nat) β)) (input : Option (List Nat))
    (el_len el_count : Nat) (init : Option β) : Option β :=
  match input, fn with
  | none, _ => none
  | _, none => none
  | some ix, some f =>
    if el_len = 0 ∨ el_count = 0 then none
    else reduce_data_loop f ix el_len el_count 0 init

/-- The slot `input[0]` of an `ObjList`. -/
def slot0 {α : Type} (input : List (Option α)) : Option α :=
  match input with
  | [] => none
  | s :: _ => s

/-- The `for (i = 0; input[i] != NULL; i++)` loop of `filter`; the first argument is
the slots from `input[i]` on, and `out` holds the `j` slots written so far. -/
def filter_loop {α : Type} (fn : FilterDataFn α) :
    List (Option α) → Nat → List (Option α) → List (Option α)
  | [], _, out => out
  | none :: _, _, out => out
  | some x :: rest, i, out =>
    if fn x i ≠ 0 then
      -- out[j] = input[i]; j++
      filter_loop fn rest (i + 1) (out ++ [some x])
    else
      filter_loop fn rest (i + 1) out

/-- The function `filter` of functools.c. -/
def filter {α : Type} (fn : Option (FilterDataFn α)) (input : Option (List (Option α))) :
    Option (List (Option α)) :=
  match input, fn with
  | none, _ => none
  | _, none => none
  | some slots, some f =>
    match slot0 slots with
    | none => none
    | some _ =>
      let out := filter_loop f slots 0 []
      -- out[j] = NULL
      some (out ++ [none])

/-- The counting loop `for (i = 0; input[i] != NULL; i++);` of `map`. -/
def count_loop {α : Type} : List (Option α) → Nat → Nat
  | [], i => i
  | none :: _, i => i
  | some _ :: rest, i => count_loop rest (i + 1)

/-- The second `for (i = 0; input[i] != NULL; i++)` loop of `map`, on the array
`out`; it returns the final `i` with the array. -/
def map_loop {α β : Type} (fn : MapDataFn α β) :
    List (Option α) → Nat → List (Option β) → Nat × List (Option β)
  | [], i, out => (i, out)
  | none :: _, i, out => (i, out)
  | some x :: rest, i, out =>
    -- out[i] = fn(input[i], i)
    map_loop fn rest (i + 1) (out.set i (fn x i))

/-- The function `map` of functools.c. The slots of the array that `malloc` returns
are all written before the array is returned; they start here as `none`. -/
def map {α β : Type} (fn : Option (MapDataFn α β)) (input : Option (List (Option α))) :
    Option (List (Option β)) :=
  match input, fn with
  | none, _ => none
  | _, none => none
  | some slots, some f =>
    match slot0 slots with
    | none => none
    | some _ =>
      let i := count_loop slots 0
      -- out = malloc(sizeof(void*) * (i + 1))
      let r := map_loop f slots 0 (List.replicate (i + 1) none)
      -- out[i] = NULL
      some (r.2.set r.1 none)

/-- The `for (i = 0; input[i] != NULL; i++)` loop of `reduce`. -/
def reduce_loop {α β : Type} (fn : ReduceDataFn α β) :
    List (Option α) → Nat → Option β → Option β
  | [], _, init => init
  | none :: _, _, init => init
  | some x :: rest, i, init =>
    -- tmp = fn(init, input[i], i); free(init); init = tmp
    let tmp := fn init x i
    reduce_loop fn rest (i + 1) tmp

/-- The function `reduce` of functools.c. -/
def reduce {α β : Type} (fn : Option (ReduceDataFn α β)) (input : Option (List (Option α)))
    (init : Option β) : Option β :=
  match input, fn with
  | none, _ => none
  | _, none => none
  | some slots, some f =>
    match slot0 slots with
    | none => none
    | some _ => reduce_loop f slots 0 init

/-- The `ObjList` holding the objects of `L`: one slot per object, then the sentinel. -/
def objList {α : Type} (L : List α) : List (Option α) :=
  L.map some ++ [none]

/-- The test callback `is_even`, on `int` objects (`%` truncates towards zero in C). -/
def is_even : FilterDataFn Int := fun i _ => if Int.tmod i 2 = 0 then 1 else 0

/-- The test callback `cube`, on `int` objects. -/
def cube : MapDataFn Int Int := fun i _ => some (i * i * i)

/-- The test callback `sum`, on `int` objects: a null `prev` counts as zero. -/
def sum : ReduceDataFn Int Int := fun prev e _ =>
  let p := match prev with
    | some v => v
    | none => 0
  some (p + e)

/-- The `int` stored in the bytes of a flat-buffer element (little-endian, unsigned
range; the tests only store small positive values). -/
def readInt : List Nat → Int
  | [] => 0
  | b :: rest => (b : Int) + 256 * readInt rest

/-! ## C strings and the libc functions used by str_split.c and str_join.c -/

/-- The C string at a pointer: the bytes stored there before the first NUL. -/
def cstr (p : List Nat) : List Nat :=
  p.takeWhile (fun b => b != 0)

/-- The libc function `strlen`. -/
def strlen (p : List Nat) : Nat :=
  (cstr p).length

/-- The libc function `strdup`: a fresh copy of the C string at `p`. -/
def strdup (p : List Nat) : List Nat :=
  cstr p

/-- The libc function `strstr`, on string contents: the offset in `haystack` of the
first occurrence of `needle`, or `none` for `NULL`. -/
def strstr (needle : List Nat) : List Nat → Option Nat
  | [] => if needle.isPrefixOf [] then some 0 else none
  | c :: t =>
    if needle.isPrefixOf (c :: t) then some 0
    else
      match strstr needle t with
      | none => none
      | some off => some (off + 1)

/-! ## str_split.c -/

/-- The struct `CollectResponse`: `el` is the owned string of the element, `nx` the
cursor (an index into the working copy) and `next` the has-more flag. -/
structure CollectResponse where
  el : List Nat
  nx : Nat
  next : Int
  deriving DecidableEq, Repr

/-- The function `collect_element` of str_split.c. `mem` is the working copy,
`curr_el` an index into it; the working copy after the call is returned too. -/
def collect_element (mem : List Nat) (curr_el : Nat) (sep : List Nat) :
    CollectResponse × List Nat :=
  match strstr (cstr sep) (cstr (mem.drop curr_el)) with
  | none =>
    ({ el := strdup (mem.drop curr_el), nx := curr_el + strlen (mem.drop curr_el), next := 0 },
      mem)
  | some off =>
    if sep.headD 0 = 0 then
      -- el = malloc(2); el[0] = curr_el[0]; el[1] = 0
      let el := cstr [mem.getD curr_el 0, 0]
      if mem.getD curr_el 0 = 0 then ({ el := el, nx := curr_el, next := 0 }, mem)
      else ({ el := el, nx := curr_el + 1, next := 1 }, mem)
    else
      let found := curr_el + off
      -- found[0] = 0
      let mem1 := mem.set found 0
      ({ el := strdup (mem1.drop curr_el), nx := found + strlen sep, next := 1 }, mem1)

/-- The `do ... while (resp.next)` loop of `str_split`, run for at most `fuel`
iterations; `none` when the loop is still running after that many. -/
def str_split_loop (delim : List Nat) :
    Nat → List Nat → Nat → List (Option (List Nat)) → Option (List (Option (List Nat)))
  | 0, _, _, _ => none
  | fuel + 1, mem, nx, list =>
    let r := collect_element mem nx delim
    -- result.list[result.length] = resp.el; result.length++
    let list1 := list ++ [some r.1.el]
    if r.1.next ≠ 0 then str_split_loop delim fuel r.2 r.1.nx list1
    else some list1

/-- The function `str_split` of str_split.c. The loop is given `strlen(str) + 1`
iterations; the outer `none` means it needs more, `some none` is the `NULL` result
and `some (some slots)` the returned array. -/
def str_split (str delim : Option (List Nat)) : Option (Option (List (Option (List Nat)))) :=
  match str, delim with
  | none, _ => some none
  | _, none => some none
  | some s, some d =>
    let localCopy := strdup s ++ [0]
    match str_split_loop d (strlen s + 1) localCopy 0 [] with
    | none => none
    | some list => some (some (list ++ [none]))

/-! ## str_join.c -/

/-- The first loop of `str_join`, which sizes the result. -/
def str_join_len (seplen : Nat) : List (Option (List Nat)) → Nat → Nat
  | [], len => len
  | none :: _, len => len
  | some s :: rest, len =>
    let len1 := len + strlen s
    let len2 := if (slot0 rest).isSome then len1 + seplen else len1
    str_join_len seplen rest len2

/-- The second loop of `str_join`; `ret` is what has been written before `p`. -/
def str_join_loop (sep : List Nat) : List (Option (List Nat)) → List Nat → List Nat
  | [], ret => ret
  | none :: _, ret => ret
  | some s :: rest, ret =>
    -- strcpy(p, list[i]); p += strlen(list[i])
    let ret1 := ret ++ cstr s
    -- if (list[i + 1]) { strcpy(p, sep); p += seplen; }
    let ret2 := if (slot0 rest).isSome then ret1 ++ cstr sep else ret1
    str_join_loop sep rest ret2

/-- The function `str_join` of str_join.c: the C string left in `ret`. -/
def str_join (list : List (Option (List Nat))) (sep : List Nat) : List Nat :=
  -- *p = 0
  cstr (str_join_loop sep list [] ++ [0])

/-! ## str_set.c -/

/-- The `for (; *haystack; haystack++)` loop of `str_contains`, on the bytes at
`haystack`. -/
def str_contains_loop (needle : Nat) : List Nat → Int
  | [] => 0
  | b :: rest =>
    if b = 0 then 0
    else if b = needle then 1
    else str_contains_loop needle rest

/-- The function `str_contains` of str_set.c. -/
def str_contains (haystack : Option (List Nat)) (needle : Nat) : Int :=
  match haystack with
  | none => 0
  | some h => if needle = 0 then 0 else str_contains_loop needle h

/-- The `for (int ix = 0; ix < strlen(letters); ix++)` loop of `str_set`; `n` is
`strlen(letters) - ix` and `ret` is the buffer that `calloc` returned. -/
def str_set_loop (letters : List Nat) : Nat → Nat → List Nat → Nat → List Nat
  | 0, _, ret, _ => ret
  | n + 1, ix, ret, retPtr =>
    if str_contains (some ret) (letters.getD ix 0) = 0 then
      -- ret[retPtr++] = letters[ix]
      str_set_loop letters n (ix + 1) (ret.set retPtr (letters.getD ix 0)) (retPtr + 1)
    else
      str_set_loop letters n (ix + 1) ret retPtr

/-- The function `str_set` of str_set.c: the C string left in the buffer `ret`. -/
def str_set (letters : Option (List Nat)) : Option (List Nat) :=
  match letters with
  | none => none
  | some l =>
    -- ret = calloc(strlen(letters) + 1, sizeof(char))
    let ret := List.replicate (strlen l + 1) 0
    some (cstr (str_set_loop l (strlen l) 0 ret 0))

/-! ## Reference definitions, in the words of the specification -/

/-- The accumulator `acc_k` of the left fold over a flat buffer, in the words of the
specification: `acc_0 = I` and `acc_{k+1} = C(acc_k, B[k], k)`. -/
def foldAcc {β : Type} (C : ReduceDataFn (List Nat) β) (B : List Nat) (el_len : Nat)
    (I : Option β) : Nat → Option β
  | 0 => I
  | k + 1 => C (foldAcc C B el_len I k) (elemAt B el_len k) k

/-- The values `T(L[0], i), T(L[1], i + 1), ...`: what a map over `L` writes from
slot `i` on. -/
def mapFrom {α β : Type} (T : MapDataFn α β) : Nat → List α → List (Option β)
  | _, [] => []
  | i, x :: rest => T x i :: mapFrom T (i + 1) rest

/-- The elements that `str_split` emits for the text `R` still to be scanned, with a
non-empty separator `D`: the text before the leftmost occurrence of `D`, then the
elements of what follows that occurrence; `fuel` bounds the number of occurrences. -/
def splitRef (D : List Nat) : Nat → List Nat → List (List Nat)
  | 0, R => [R]
  | fuel + 1, R =>
    match strstr D R with
    | none => [R]
    | some q => R.take q :: splitRef D fuel (R.drop (q + D.length))

/-- The strings of `L` concatenated in order, with `sep` between each pair of
consecutive strings and nowhere else. -/
def joinWith (sep : List Nat) : List (List Nat) → List Nat
  | [] => []
  | [x] => x
  | x :: y :: rest => x ++ sep ++ joinWith sep (y :: rest)

/-- The accumulator `acc_k` of the left fold over a boxed list `L`: `acc_0 = I` and
`acc_{k+1} = C(acc_k, L[k], k)`; past the end of `L` it stays as it is. -/
def listAcc {α β : Type} (C : ReduceDataFn α β) (L : List α) (I : Option β) : Nat → Option β
  | 0 => I
  | k + 1 =>
    match L.get? k with
    | some x => C (listAcc C L I k) x k
    | none => listAcc C L I k

/-- The distinct characters of a string, in order of first occurrence. -/
def firstOccurrences : List Nat → List Nat
  | [] => []
  | c :: rest => c :: (firstOccurrences rest).filter (fun x => x != c)

/-- What the loop of `str_set` has collected: `acc` followed by the characters of
the rest of the string that are not yet in it. -/
def setAcc : List Nat → List Nat → List Nat
  | acc, [] => acc
  | acc, c :: rest => if c ∈ acc then setAcc acc rest else setAcc (acc ++ [c]) rest

/-! ## Theorems about functools.c -/

theorem mapFrom_length {α β : Type} (T : MapDataFn α β) :
    ∀ (L : List α) (i : Nat), (mapFrom T i L).length = L.length := by
  intro L
  induction L with
  | nil => intro i; rfl
  | cons x rest ih => intro i; simp [mapFrom, ih]

theorem mapFrom_getElem? {α β : Type} (T : MapDataFn α β) :
    ∀ (L : List α) (i k : Nat) (hk : k < L.length),
      (mapFrom T i L)[k]? = some (T (L.get ⟨k, hk⟩) (i + k)) := by
  intro L
  induction L with
  | nil => intro i k hk; simp at hk
  | cons x rest ih =>
    intro i k hk
    cases k with
    | zero => simp [mapFrom]
    | succ k =>
      have hk1 : k < rest.length := by simpa using hk
      have h := ih (i + 1) k hk1
      simp only [mapFrom, List.getElem?_cons_succ, h, List.get_eq_getElem,
        List.getElem_cons_succ]
      congr 2
      omega

theorem set_at_length {γ : Type} (pre : List γ) (g v : γ) (junk : List γ) :
    (pre ++ g :: junk).set pre.length v = (pre ++ [v]) ++ junk := by
  simp [List.set_append]

theorem objList_cons {α : Type} (x : α) (rest : List α) :
    objList (x :: rest) = some x :: objList rest := rfl

theorem objList_nil {α : Type} : objList ([] : List α) = [none] := rfl

theorem count_loop_objList {α : Type} :
    ∀ (L : List α) (i : Nat), count_loop (objList L) i = i + L.length := by
  intro L
  induction L with
  | nil => intro i; simp [objList_nil, count_loop]
  | cons x rest ih =>
    intro i
    rw [objList_cons, count_loop, ih (i + 1), List.length_cons]
    omega

theorem map_loop_objList {α β : Type} (T : MapDataFn α β) :
    ∀ (L : List α) (pre junk : List (Option β)), L.length < junk.length →
      map_loop T (objList L) pre.length (pre ++ junk) =
        (pre.length + L.length, pre ++ mapFrom T pre.length L ++ junk.drop L.length) := by
  intro L
  induction L with
  | nil => intro pre junk _; simp [objList_nil, map_loop, mapFrom]
  | cons x rest ih =>
    intro pre junk hj
    cases junk with
    | nil => simp at hj
    | cons g junk1 =>
      have hj1 : rest.length < junk1.length := by simpa using hj
      have h := ih (pre ++ [T x pre.length]) junk1 hj1
      rw [objList_cons, map_loop, set_at_length]
      simp only [List.length_append, List.length_singleton] at h
      rw [h]
      simp [mapFrom, Nat.add_assoc, Nat.add_comm 1]

theorem slot0_objList_cons {α : Type} (x : α) (rest : List α) :
    slot0 (objList (x :: rest)) = some x := rfl

theorem map_objList {α β : Type} (T : MapDataFn α β) (L : List α) (hL : L ≠ []) :
    map (some T) (some (objList L)) = some (mapFrom T 0 L ++ [none]) := by
  cases L with
  | nil => exact absurd rfl hL
  | cons x rest =>
    have h := map_loop_objList T (x :: rest) []
      (List.replicate (count_loop (objList (x :: rest)) 0 + 1) none)
      (by simp [count_loop_objList])
    simp only [List.length_nil, List.nil_append] at h
    simp only [map, slot0_objList_cons, h]
    rw [count_loop_objList]
    have hset := set_at_length (mapFrom T 0 (x :: rest)) (none : Option β) none []
    rw [mapFrom_length] at hset
    simp only [List.drop_replicate, Nat.zero_add, Nat.add_sub_cancel_left,
      List.replicate_one, List.append_nil] at hset ⊢
    rw [hset]

/-- C2: on a non-empty boxed list `L`, `map` returns an array holding one slot per
element of `L` followed by the sentinel, and slot `i` holds `T(L[i], i)` for every
index `i` of `L`. -/
theorem map_maps_every_element {α β : Type} (T : MapDataFn α β) (L : List α) (hL : L ≠ []) :
    ∃ out : List (Option β),
      map (some T) (some (objList L)) = some (out ++ [none]) ∧
      out.length = L.length ∧
      ∀ (i : Nat) (hi : i < L.length), out[i]? = some (T (L.get ⟨i, hi⟩) i) := by
  refine ⟨mapFrom T 0 L, map_objList T L hL, mapFrom_length T L 0, ?_⟩
  intro i hi
  simpa using mapFrom_getElem? T L 0 i hi

/-- The test `test_map`: `cube` over the boxed list `1, 2, 3, 4, 5`. -/
theorem test_map :
    map (some cube) (some (objList [1, 2, 3, 4, 5]))
      = some [some 1, some 8, some 27, some 64, some 125, none] := by
  decide

/-- C2, on the test of functools.c: `cube` over the boxed list `1, 2, 3, 4, 5`. -/
theorem map_maps_every_element_witness :
    ([1, 2, 3, 4, 5] : List Int) ≠ [] ∧
    ∃ out : List (Option Int),
      map (some cube) (some (objList [1, 2, 3, 4, 5])) = some (out ++ [none]) ∧
      out.length = ([1, 2, 3, 4, 5] : List Int).length ∧
      ∀ (i : Nat) (hi : i < ([1, 2, 3, 4, 5] : List Int).length),
        out[i]? = some (cube (([1, 2, 3, 4, 5] : List Int).get ⟨i, hi⟩) i) :=
  ⟨by decide, map_maps_every_element cube [1, 2, 3, 4, 5] (by decide)⟩

/-- The test `test_filter_data`: `is_even` over the `int` buffer `{1, 2, 3, 4, 5}`. -/
theorem test_filter_data :
    filter_data (some (fun b i => is_even (readInt b) i))
        (some [1, 0, 0, 0, 2, 0, 0, 0, 3, 0, 0, 0, 4, 0, 0, 0, 5, 0, 0, 0]) 4 5
      = some [some [2, 0, 0, 0], some [4, 0, 0, 0], none] := by
  decide


theorem filter_data_loop_eq (fn : FilterDataFn (List Nat)) (ix : List Nat) (el_len : Nat) :
    ∀ (n j : Nat) (out : List (Option (List Nat))),
      filter_data_loop fn ix el_len n j out =
        out ++ ((List.range' j n).filter (fun i => decide (fn (elemAt ix el_len i) i ≠ 0))).map
          (fun i => some (elemAt ix el_len i)) := by
  intro n
  induction n with
  | zero => intro j out; simp [filter_data_loop]
  | succ n ih =>
    intro j out
    by_cases h : fn (elemAt ix el_len j) j = 0
    · simp [filter_data_loop, List.range'_succ, List.filter_cons, h, ih]
    · simp [filter_data_loop, List.range'_succ, List.filter_cons, h, ih]

/-- C1: on a flat buffer `B` with `el_len > 0` and `el_count > 0`, `filter_data`
returns the list of copies of exactly the elements `B[j]`, `j < el_count`, with
`P(B[j], j) != 0`, in their original order, followed by the sentinel; the number of
elements equals the number of indices `j` at which `P(B[j], j) != 0`. -/
theorem filter_data_selects (P : FilterDataFn (List Nat)) (B : List Nat) (el_len el_count : Nat)
    (hlen : 0 < el_len) (hcount : 0 < el_count) :
    ∃ out : List (List Nat),
      filter_data (some P) (some B) el_len el_count = some (objList out) ∧
      out = ((List.range el_count).filter
              (fun j => decide (P (elemAt B el_len j) j ≠ 0))).map (elemAt B el_len) ∧
      out.length = (List.range el_count).countP
              (fun j => decide (P (elemAt B el_len j) j ≠ 0)) := by
  refine ⟨_, ?_, rfl, ?_⟩
  · have h : ¬ (el_len = 0 ∨ el_count = 0) := by omega
    simp [filter_data, h, filter_data_loop_eq, objList, List.range_eq_range', List.map_map,
      Function.comp_def]
  · simp [List.countP_eq_length_filter]

/-- C1, on the test of functools.c: `is_even` over the `int` buffer `{1, 2, 3, 4, 5}`
selects the elements 2 and 4. -/
theorem filter_data_selects_witness :
    0 < 4 ∧ 0 < 5 ∧
    ∃ out : List (List Nat),
      filter_data (some (fun b i => is_even (readInt b) i))
        (some [1, 0, 0, 0, 2, 0, 0, 0, 3, 0, 0, 0, 4, 0, 0, 0, 5, 0, 0, 0]) 4 5
          = some (objList out) ∧
      out = ((List.range 5).filter
              (fun j => decide ((fun b i => is_even (readInt b) i)
                (elemAt [1, 0, 0, 0, 2, 0, 0, 0, 3, 0, 0, 0, 4, 0, 0, 0, 5, 0, 0, 0] 4 j) j
                  ≠ 0))).map
              (elemAt [1, 0, 0, 0, 2, 0, 0, 0, 3, 0, 0, 0, 4, 0, 0, 0, 5, 0, 0, 0] 4) ∧
      out.length = (List.range 5).countP
              (fun j => decide ((fun b i => is_even (readInt b) i)
                (elemAt [1, 0, 0, 0, 2, 0, 0, 0, 3, 0, 0, 0, 4, 0, 0, 0, 5, 0, 0, 0] 4 j) j
                  ≠ 0)) :=
  ⟨by decide, by decide,
    filter_data_selects (fun b i => is_even (readInt b) i)
      [1, 0, 0, 0, 2, 0, 0, 0, 3, 0, 0, 0, 4, 0, 0, 0, 5, 0, 0, 0] 4 5 (by decide) (by decide)⟩

theorem reduce_data_loop_eq {β : Type} (C : ReduceDataFn (List Nat) β) (B : List Nat)
    (el_len : Nat) (I : Option β) :
    ∀ (n j : Nat), reduce_data_loop C B el_len n j (foldAcc C B el_len I j)
      = foldAcc C B el_len I (j + n) := by
  intro n
  induction n with
  | zero => intro j; rfl
  | succ n ih =>
    intro j
    have h := ih (j + 1)
    simp only [foldAcc] at h
    simp only [reduce_data_loop, h]
    congr 1
    omega

/-- C3: on a flat buffer `B` of `el_count > 0` elements of size `el_len > 0`,
`reduce_data(C, B, I)` is the accumulator `acc_n`, `n = el_count`, of the left fold
`acc_0 = I`, `acc_{k+1} = C(acc_k, B[k], k)`. -/
theorem reduce_data_is_left_fold {β : Type} (C : ReduceDataFn (List Nat) β) (B : List Nat)
    (el_len el_count : Nat) (I : Option β) (hlen : 0 < el_len) (hcount : 0 < el_count) :
    reduce_data (some C) (some B) el_len el_count I = foldAcc C B el_len I el_count := by
  have h : ¬ (el_len = 0 ∨ el_count = 0) := by omega
  have hloop := reduce_data_loop_eq C B el_len I el_count 0
  simp only [foldAcc, Nat.zero_add] at hloop
  simp [reduce_data, h, hloop]

/-- The test `test_reduce_data`: `sum` over the `int` buffer `{1, 2, 3, 4, 5}` with a
null initial value. -/
theorem test_reduce_data :
    reduce_data (some (fun prev b i => sum prev (readInt b) i))
        (some [1, 0, 0, 0, 2, 0, 0, 0, 3, 0, 0, 0, 4, 0, 0, 0, 5, 0, 0, 0]) 4 5 none
      = some 15 := by
  decide

/-- C3, on the test of functools.c: `sum` over the `int` buffer `{1, 2, 3, 4, 5}`. -/
theorem reduce_data_is_left_fold_witness :
    0 < 4 ∧ 0 < 5 ∧
    reduce_data (some (fun prev b i => sum prev (readInt b) i))
        (some [1, 0, 0, 0, 2, 0, 0, 0, 3, 0, 0, 0, 4, 0, 0, 0, 5, 0, 0, 0]) 4 5 none
      = foldAcc (fun prev b i => sum prev (readInt b) i)
          [1, 0, 0, 0, 2, 0, 0, 0, 3, 0, 0, 0, 4, 0, 0, 0, 5, 0, 0, 0] 4 none 5 :=
  ⟨by decide, by decide,
    reduce_data_is_left_fold (fun prev b i => sum prev (readInt b) i)
      [1, 0, 0, 0, 2, 0, 0, 0, 3, 0, 0, 0, 4, 0, 0, 0, 5, 0, 0, 0] 4 5 none
      (by decide) (by decide)⟩

/-- C4 fails on the code: `reduce` on the empty list (the sentinel alone) with the
initial value 7 does not return that initial value. -/
theorem reduce_empty_list_loses_initial :
    ¬ (∀ (C : ReduceDataFn Int Int) (I : Option Int),
        reduce (some C) (some (objList ([] : List Int))) I = I) := by
  intro h
  have h7 := h sum (some 7)
  simp [reduce, objList, slot0] at h7

/-- C4, amended: on the empty list (the sentinel alone) `reduce` returns the
no-result signal `NULL`, whatever the combine function and the initial value are;
the guard `input[0] == NULL` returns before the initial value is looked at. -/
theorem reduce_empty_list_returns_null {α β : Type} (C : Option (ReduceDataFn α β))
    (I : Option β) :
    reduce C (some (objList ([] : List α))) I = none := by
  cases C <;> simp [reduce, objList, slot0]

/-- C5: each of `filter_data`, `map_data` and `reduce_data` returns `NULL` whenever
the input buffer is null, or the callback is null, or the element size is 0, or the
element count is 0. -/
theorem data_operations_reject_invalid_input (β γ : Type) (input : Option (List Nat))
    (el_len el_count : Nat) :
    (∀ P : Option (FilterDataFn (List Nat)),
      input = none ∨ P = none ∨ el_len = 0 ∨ el_count = 0 →
        filter_data P input el_len el_count = none) ∧
    (∀ T : Option (MapDataFn (List Nat) β),
      input = none ∨ T = none ∨ el_len = 0 ∨ el_count = 0 →
        map_data T input el_len el_count = none) ∧
    (∀ (C : Option (ReduceDataFn (List Nat) γ)) (init : Option γ),
      input = none ∨ C = none ∨ el_len = 0 ∨ el_count = 0 →
        reduce_data C input el_len el_count init = none) := by
  refine ⟨?_, ?_, ?_⟩
  · intro P h
    cases input <;> cases P <;> simp_all [filter_data]
  · intro T h
    cases input <;> cases T <;> simp_all [map_data]
  · intro C init h
    cases input <;> cases C <;> simp_all [reduce_data]

/-- C5, at concrete inputs: element size 0 for `filter_data`, element count 0 for
`map_data` and a null callback for `reduce_data`. -/
theorem data_operations_reject_invalid_input_witness :
    filter_data (some (fun b i => is_even (readInt b) i)) (some [1, 0, 0, 0]) 0 1 = none ∧
    map_data (some (fun b i => cube (readInt b) i)) (some [1, 0, 0, 0]) 4 0 = none ∧
    reduce_data (none : Option (ReduceDataFn (List Nat) Int)) (some [1, 0, 0, 0]) 4 1 (some 3)
      = none :=
  ⟨(data_operations_reject_invalid_input Int Int (some [1, 0, 0, 0]) 0 1).1
      (some (fun b i => is_even (readInt b) i)) (Or.inr (Or.inr (Or.inl rfl))),
   ((data_operations_reject_invalid_input Int Int (some [1, 0, 0, 0]) 4 0).2.1
      (some (fun b i => cube (readInt b) i)) (Or.inr (Or.inr (Or.inr rfl))) :
        map_data (some (fun b i => cube (readInt b) i)) (some [1, 0, 0, 0]) 4 0 = none),
   ((data_operations_reject_invalid_input Int Int (some [1, 0, 0, 0]) 4 1).2.2
      none (some 3) (Or.inr (Or.inl rfl)) :
        reduce_data (none : Option (ReduceDataFn (List Nat) Int)) (some [1, 0, 0, 0]) 4 1
          (some 3) = none)⟩

theorem filter_loop_rejecting {α : Type} (P : FilterDataFn α) :
    ∀ (L : List α) (i : Nat) (out : List (Option α)),
      (∀ (k : Nat) (hk : k < L.length), P (L.get ⟨k, hk⟩) (i + k) = 0) →
      filter_loop P (objList L) i out = out := by
  intro L
  induction L with
  | nil => intro i out _; simp [objList_nil, filter_loop]
  | cons x rest ih =>
    intro i out h
    have h0 : P x i = 0 := by simpa using h 0 (by simp)
    have hrest : ∀ (k : Nat) (hk : k < rest.length), P (rest.get ⟨k, hk⟩) (i + 1 + k) = 0 := by
      intro k hk
      have := h (k + 1) (by simpa using hk)
      simpa [Nat.add_assoc, Nat.add_comm 1] using this
    rw [objList_cons]
    simp only [filter_loop, h0, ne_eq, not_true_eq_false, if_false]
    exact ih (i + 1) out hrest

/-- C6: when the predicate rejects every element of a non-empty input, `filter_data`
(flat buffer) and `filter` (boxed list) return a valid empty list, the array holding
the sentinel alone; this differs from the `NULL` that the two return for a null
input, a zero element count, or a boxed list without elements. -/
theorem filter_rejecting_all_returns_empty_list (α : Type) :
    (∀ (P : FilterDataFn (List Nat)) (B : List Nat) (el_len el_count : Nat),
      0 < el_len → 0 < el_count → (∀ j, j < el_count → P (elemAt B el_len j) j = 0) →
        filter_data (some P) (some B) el_len el_count = some [none]) ∧
    (∀ (P : FilterDataFn α) (L : List α),
      L ≠ [] → (∀ (i : Nat) (hi : i < L.length), P (L.get ⟨i, hi⟩) i = 0) →
        filter (some P) (some (objList L)) = some [none]) ∧
    (some [none] : Option (List (Option α))) ≠ none ∧
    (∀ (P : Option (FilterDataFn (List Nat))) (B : Option (List Nat)) (el_len : Nat),
      filter_data P none el_len 1 = none ∧ filter_data P B el_len 0 = none) ∧
    (∀ P : Option (FilterDataFn α),
      filter P none = none ∧ filter P (some (objList [])) = none) := by
  refine ⟨?_, ?_, by simp, ?_, ?_⟩
  · intro P B el_len el_count hlen hcount hrej
    have h : ¬ (el_len = 0 ∨ el_count = 0) := by omega
    have hnil : (List.range' 0 el_count).filter
        (fun i => decide (P (elemAt B el_len i) i ≠ 0)) = [] := by
      rw [List.filter_eq_nil_iff]
      intro j hj
      have hj1 : j < el_count := by simpa [List.mem_range'] using hj
      simp [hrej j hj1]
    simp only [filter_data, h, if_false, filter_data_loop_eq, hnil]
    rfl
  · intro P L hL hrej
    cases L with
    | nil => exact absurd rfl hL
    | cons x rest =>
      have hloop := filter_loop_rejecting P (x :: rest) 0 [] (by simpa using hrej)
      simp only [filter, slot0_objList_cons, hloop]
      rfl
  · intro P B el_len
    constructor
    · simp [filter_data]
    · cases B <;> cases P <;> simp [filter_data]
  · intro P
    constructor
    · simp [filter]
    · cases P <;> simp [filter, objList, slot0]

/-- C6, at concrete inputs: a predicate that rejects everything, over the `int`
buffer `{1, 3}` and over the boxed list `1, 3`. -/
theorem filter_rejecting_all_returns_empty_list_witness :
    filter_data (some (fun _ _ => 0)) (some [1, 0, 0, 0, 3, 0, 0, 0]) 4 2 = some [none] ∧
    filter (some (fun _ _ => 0)) (some (objList ([1, 3] : List Int))) = some [none] :=
  ⟨(filter_rejecting_all_returns_empty_list Int).1 (fun _ _ => 0) [1, 0, 0, 0, 3, 0, 0, 0] 4 2
      (by decide) (by decide) (fun _ _ => rfl),
   (filter_rejecting_all_returns_empty_list Int).2.1 (fun _ _ => 0) [1, 3]
      (by decide) (fun _ _ => rfl)⟩

/-! ## Theorems about C strings -/

theorem cstr_append_nul (R rest : List Nat) (h : 0 ∉ R) : cstr (R ++ 0 :: rest) = R := by
  unfold cstr
  rw [List.takeWhile_append_of_pos]
  · simp
  · intro a ha
    have : a ≠ 0 := fun h0 => h (h0 ▸ ha)
    simpa using this

theorem cstr_eq_self (R : List Nat) (h : 0 ∉ R) : cstr R = R := by
  have := cstr_append_nul R [] h
  unfold cstr at this ⊢
  rw [List.takeWhile_eq_self_iff]
  intro a ha
  have : a ≠ 0 := fun h0 => h (h0 ▸ ha)
  simpa using this

theorem strstr_some_eq (D : List Nat) :
    ∀ (R : List Nat) (q : Nat), strstr D R = some q →
      R = R.take q ++ (D ++ R.drop (q + D.length)) := by
  intro R
  induction R with
  | nil =>
    intro q h
    by_cases hp : D.isPrefixOf [] = true
    · have hD : D = [] := by
        rw [List.isPrefixOf_iff_prefix] at hp
        exact List.prefix_nil.mp hp
      simp [hD]
    · simp [strstr, hp] at h
  | cons c t ih =>
    intro q h
    by_cases hp : D.isPrefixOf (c :: t) = true
    · simp only [strstr, hp, if_true, Option.some.injEq] at h
      subst h
      rw [List.isPrefixOf_iff_prefix, List.prefix_iff_eq_append] at hp
      simpa using hp.symm
    · simp only [strstr, hp] at h
      cases hs : strstr D t with
      | none => simp [hs] at h
      | some off =>
        simp only [hs, Bool.false_eq_true, if_false, Option.some.injEq] at h
        subst h
        have := ih off hs
        simp only [List.take_succ_cons, List.cons_append, List.cons.injEq, true_and]
        rw [show off + 1 + D.length = (off + D.length) + 1 by omega, List.drop_succ_cons]
        exact this

theorem strstr_some_le (D : List Nat) :
    ∀ (R : List Nat) (q : Nat), strstr D R = some q → q + D.length ≤ R.length := by
  intro R
  induction R with
  | nil =>
    intro q h
    by_cases hp : D.isPrefixOf [] = true
    · have hD : D = [] := by
        rw [List.isPrefixOf_iff_prefix] at hp
        exact List.prefix_nil.mp hp
      simp [strstr, hD] at h
      simp [hD, ← h]
    · simp [strstr, hp] at h
  | cons c t ih =>
    intro q h
    by_cases hp : D.isPrefixOf (c :: t) = true
    · simp only [strstr, hp, if_true, Option.some.injEq] at h
      subst h
      rw [List.isPrefixOf_iff_prefix] at hp
      simpa using hp.length_le
    · simp only [strstr, hp] at h
      cases hs : strstr D t with
      | none => simp [hs] at h
      | some off =>
        simp only [hs, Bool.false_eq_true, if_false, Option.some.injEq] at h
        subst h
        have := ih off hs
        simp only [List.length_cons]
        omega

theorem strstr_none_of_not_infix (D : List Nat) :
    ∀ R : List Nat, ¬ D <:+: R → strstr D R = none := by
  intro R
  induction R with
  | nil =>
    intro h
    have hp : ¬ D.isPrefixOf [] = true := by
      rw [List.isPrefixOf_iff_prefix]
      exact fun hpre => h hpre.isInfix
    simp [strstr, hp]
  | cons c t ih =>
    intro h
    have hp : ¬ D.isPrefixOf (c :: t) = true := by
      rw [List.isPrefixOf_iff_prefix]
      exact fun hpre => h hpre.isInfix
    have ht : strstr D t = none := ih (fun hin => h (List.infix_cons hin))
    simp [strstr, hp, ht]

/-! ## Theorems about str_split.c and str_join.c -/

theorem drop_working_copy (pre R : List Nat) :
    (pre ++ R ++ [0]).drop pre.length = R ++ [0] := by
  rw [List.append_assoc, List.drop_left]

theorem collect_element_not_found (pre R D : List Nat) (hR : 0 ∉ R) (hD : 0 ∉ D)
    (hs : strstr D R = none) :
    collect_element (pre ++ R ++ [0]) pre.length D =
      ({ el := R, nx := pre.length + R.length, next := 0 }, pre ++ R ++ [0]) := by
  simp only [collect_element, drop_working_copy, cstr_append_nul R [] hR, cstr_eq_self D hD, hs,
    strdup, strlen]

theorem collect_element_at_match (pre A D R1 : List Nat) (q : Nat) (hq : A.length = q)
    (hA : 0 ∉ A) (hR1 : 0 ∉ R1) (hD : 0 ∉ D) (hne : D ≠ [])
    (hs : strstr D (A ++ (D ++ R1)) = some q) :
    ∃ pre1 : List Nat,
      collect_element (pre ++ (A ++ (D ++ R1)) ++ [0]) pre.length D =
        ({ el := A, nx := pre.length + q + D.length, next := 1 }, pre1 ++ R1 ++ [0]) ∧
      pre1.length = pre.length + q + D.length := by
  cases D with
  | nil => exact absurd rfl hne
  | cons d D1 =>
    have hd : d ≠ 0 := fun h0 => hD (by simp [h0])
    have hR : 0 ∉ A ++ (d :: D1 ++ R1) := by
      simp only [List.mem_append, not_or]
      exact ⟨hA, hD, hR1⟩
    refine ⟨pre ++ A ++ 0 :: D1, ?_, ?_⟩
    · have hset : (pre ++ (A ++ (d :: D1 ++ R1)) ++ [0]).set (pre.length + q) 0
          = pre ++ (A ++ 0 :: (D1 ++ R1 ++ [0])) := by
        have h1 : pre ++ (A ++ (d :: D1 ++ R1)) ++ [0]
            = (pre ++ A) ++ d :: (D1 ++ R1 ++ [0]) := by simp
        have h2 : pre.length + q = (pre ++ A).length := by simp [hq]
        rw [h1, h2, set_at_length]
        simp
      have hdrop : (pre ++ (A ++ 0 :: (D1 ++ R1 ++ [0]))).drop pre.length
          = A ++ 0 :: (D1 ++ R1 ++ [0]) := List.drop_left _ _
      simp only [collect_element, drop_working_copy, cstr_append_nul _ [] hR,
        cstr_eq_self (d :: D1) hD, hs, List.headD_cons, hd, if_false, hset, hdrop, strdup,
        cstr_append_nul A _ hA, strlen]
      simp
    · simp [hq]
      omega

theorem collect_element_found (pre R D : List Nat) (q : Nat) (hR : 0 ∉ R) (hD : 0 ∉ D)
    (hne : D ≠ []) (hs : strstr D R = some q) :
    ∃ pre1 : List Nat,
      collect_element (pre ++ R ++ [0]) pre.length D =
        ({ el := R.take q, nx := pre.length + q + D.length, next := 1 },
          pre1 ++ R.drop (q + D.length) ++ [0]) ∧
      pre1.length = pre.length + q + D.length := by
  have hle := strstr_some_le D R q hs
  have heq := strstr_some_eq D R q hs
  have hq : (R.take q).length = q := by
    rw [List.length_take]
    omega
  have hA : 0 ∉ R.take q := fun h => hR (List.mem_of_mem_take h)
  have hR1 : 0 ∉ R.drop (q + D.length) := fun h => hR (List.mem_of_mem_drop h)
  have hs1 : strstr D (R.take q ++ (D ++ R.drop (q + D.length))) = some q := by
    rw [← heq]
    exact hs
  have key := collect_element_at_match pre (R.take q) D (R.drop (q + D.length)) q hq hA hR1 hD
    hne hs1
  rw [← heq] at key
  exact key

theorem str_split_loop_refines (D : List Nat) (hD : 0 ∉ D) (hne : D ≠ []) :
    ∀ (fuel : Nat) (R pre : List Nat) (list : List (Option (List Nat))),
      0 ∉ R → R.length < fuel →
      str_split_loop D fuel (pre ++ R ++ [0]) pre.length list =
        some (list ++ (splitRef D fuel R).map some) := by
  intro fuel
  induction fuel with
  | zero => intro R pre list _ hlt; omega
  | succ fuel ih =>
    intro R pre list hR hlt
    cases hs : strstr D R with
    | none =>
      simp only [str_split_loop, collect_element_not_found pre R D hR hD hs, splitRef, hs]
      simp
    | some q =>
      obtain ⟨pre1, hce, hlen⟩ := collect_element_found pre R D q hR hD hne hs
      have hle := strstr_some_le D R q hs
      have hDpos : 0 < D.length := List.length_pos.mpr hne
      have hR1 : 0 ∉ R.drop (q + D.length) := fun h => hR (List.mem_of_mem_drop h)
      have hlt1 : (R.drop (q + D.length)).length < fuel := by
        rw [List.length_drop]
        omega
      have hrec := ih (R.drop (q + D.length)) pre1 (list ++ [some (R.take q)]) hR1 hlt1
      rw [hlen] at hrec
      simp only [str_split_loop, hce, splitRef, hs, hrec]
      simp

theorem str_split_eq_splitRef (S D : List Nat) (hS : 0 ∉ S) (hD : 0 ∉ D) (hne : D ≠ []) :
    str_split (some S) (some D)
      = some (some (objList (splitRef D (S.length + 1) S))) := by
  have h := str_split_loop_refines D hD hne (S.length + 1) S [] [] hS (by omega)
  simp only [List.nil_append, List.length_nil] at h
  simp only [str_split, strdup, strlen, cstr_eq_self S hS, h, objList]

theorem splitRef_ne_nil (D : List Nat) (fuel : Nat) (R : List Nat) : splitRef D fuel R ≠ [] := by
  cases fuel with
  | zero => simp [splitRef]
  | succ fuel =>
    cases hs : strstr D R <;> simp [splitRef, hs]

theorem splitRef_no_nul (D : List Nat) :
    ∀ (fuel : Nat) (R : List Nat), 0 ∉ R → ∀ e ∈ splitRef D fuel R, 0 ∉ e := by
  intro fuel
  induction fuel with
  | zero => intro R hR e he; simp [splitRef] at he; rw [he]; exact hR
  | succ fuel ih =>
    intro R hR e he
    cases hs : strstr D R with
    | none => simp [splitRef, hs] at he; rw [he]; exact hR
    | some q =>
      simp only [splitRef, hs, List.mem_cons] at he
      rcases he with he | he
      · rw [he]; exact fun h => hR (List.mem_of_mem_take h)
      · exact ih _ (fun h => hR (List.mem_of_mem_drop h)) e he

theorem joinWith_cons_of_ne_nil (D x : List Nat) (rest : List (List Nat)) (h : rest ≠ []) :
    joinWith D (x :: rest) = x ++ D ++ joinWith D rest := by
  cases rest with
  | nil => exact absurd rfl h
  | cons y rest1 => rfl

theorem joinWith_splitRef (D : List Nat) :
    ∀ (fuel : Nat) (R : List Nat), joinWith D (splitRef D fuel R) = R := by
  intro fuel
  induction fuel with
  | zero => intro R; rfl
  | succ fuel ih =>
    intro R
    cases hs : strstr D R with
    | none => simp [splitRef, hs, joinWith]
    | some q =>
      simp only [splitRef, hs]
      rw [joinWith_cons_of_ne_nil D _ _ (splitRef_ne_nil D fuel _), ih, List.append_assoc]
      exact (strstr_some_eq D R q hs).symm

theorem str_join_loop_objList (D : List Nat) (hD : 0 ∉ D) :
    ∀ (els : List (List Nat)) (ret : List Nat), (∀ e ∈ els, 0 ∉ e) →
      str_join_loop D (objList els) ret = ret ++ joinWith D els := by
  intro els
  induction els with
  | nil => intro ret _; simp [objList_nil, str_join_loop, joinWith]
  | cons x rest ih =>
    intro ret hels
    have hx : 0 ∉ x := hels x (by simp)
    have hrest : ∀ e ∈ rest, 0 ∉ e := fun e he => hels e (by simp [he])
    cases rest with
    | nil =>
      simp [objList_cons, objList_nil, str_join_loop, slot0, joinWith, cstr_eq_self x hx]
    | cons y rest1 =>
      rw [objList_cons, str_join_loop, slot0_objList_cons]
      simp only [Option.isSome_some, if_true]
      rw [ih _ hrest, cstr_eq_self x hx, cstr_eq_self D hD,
        joinWith_cons_of_ne_nil D x (y :: rest1) (by simp)]
      simp

theorem str_join_objList (D : List Nat) (hD : 0 ∉ D) (els : List (List Nat))
    (hels : ∀ e ∈ els, 0 ∉ e) (hj : 0 ∉ joinWith D els) :
    str_join (objList els) D = joinWith D els := by
  simp only [str_join, str_join_loop_objList D hD els [] hels, List.nil_append]
  exact cstr_append_nul _ [] hj

/-- C7: for every string `S` and every non-empty separator `D`, `str_split(S, D)`
returns a list, and `str_join` of that list with `D` is `S` again. -/
theorem split_join_round_trip (S D : List Nat) (hS : 0 ∉ S) (hD : 0 ∉ D) (hne : D ≠ []) :
    ∃ list : List (Option (List Nat)),
      str_split (some S) (some D) = some (some list) ∧ str_join list D = S := by
  refine ⟨_, str_split_eq_splitRef S D hS hD hne, ?_⟩
  have hj := joinWith_splitRef D (S.length + 1) S
  rw [str_join_objList D hD _ (splitRef_no_nul D _ S hS) (by rw [hj]; exact hS), hj]

/-- C7, at `S = "a,b,c"` and `D = ","`. -/
theorem split_join_round_trip_witness :
    ∃ list : List (Option (List Nat)),
      str_split (some [97, 44, 98, 44, 99]) (some [44]) = some (some list) ∧
      str_join list [44] = [97, 44, 98, 44, 99] :=
  split_join_round_trip [97, 44, 98, 44, 99] [44] (by decide) (by decide) (by decide)

theorem cstr_nil : cstr [] = [] := rfl

theorem headD_eq_zero_of_cstr_nil (D : List Nat) (h : cstr D = []) : D.headD 0 = 0 := by
  cases D with
  | nil => rfl
  | cons d D1 =>
    by_cases hd : d = 0
    · simp [hd]
    · simp [cstr, List.takeWhile_cons, hd] at h

/-- C8: for every separator `D`, empty or not, `str_split("", D)` returns a list of
exactly one element, the empty string. -/
theorem split_empty_string (D : List Nat) :
    str_split (some []) (some D) = some (some [some [], none]) := by
  have hmem : cstr ([0] : List Nat) = [] := by decide
  have hdrop : List.drop 0 ([0] : List Nat) = [0] := rfl
  by_cases hD : cstr D = []
  · have h0 : D.head?.getD 0 = 0 := by simpa using headD_eq_zero_of_cstr_nil D hD
    have hel : cstr ([0, 0] : List Nat) = [] := by decide
    simp [str_split, strdup, strlen, cstr_nil, str_split_loop, collect_element, hmem, hD,
      strstr, h0, hel]
  · have hp : ¬ (cstr D).isPrefixOf [] = true := by
      rw [List.isPrefixOf_iff_prefix]
      exact fun hpre => hD (List.prefix_nil.mp hpre)
    simp [str_split, strdup, strlen, cstr_nil, str_split_loop, collect_element, hmem,
      strstr, hp]

theorem collect_element_empty_sep_end (pre : List Nat) :
    collect_element (pre ++ [] ++ [0]) pre.length [] =
      ({ el := [], nx := pre.length, next := 0 }, pre ++ [] ++ [0]) := by
  have hstr : ∀ X : List Nat, strstr [] X = some 0 := by
    intro X
    cases X <;> simp [strstr]
  have hget : (pre ++ [] ++ [0]).getD pre.length 0 = 0 := by simp
  have hel : cstr ([0, 0] : List Nat) = [] := by decide
  simp only [collect_element, cstr_nil, hstr, List.headD_nil, if_true, hget, hel]

theorem collect_element_empty_sep_char (pre R : List Nat) (c : Nat) (hc : c ≠ 0) :
    collect_element (pre ++ (c :: R) ++ [0]) pre.length [] =
      ({ el := [c], nx := pre.length + 1, next := 1 }, (pre ++ [c]) ++ R ++ [0]) := by
  have hstr : ∀ X : List Nat, strstr [] X = some 0 := by
    intro X
    cases X <;> simp [strstr]
  have hget : (pre ++ (c :: R) ++ [0]).getD pre.length 0 = c := by
    have h1 : (pre ++ (c :: R) ++ [0])[pre.length]? = some c := by
      rw [List.append_assoc, List.getElem?_append_right (le_refl _)]
      simp
    rw [List.getD_eq_getElem?_getD, h1]
    rfl
  have hel : cstr [c, 0] = [c] := cstr_append_nul [c] [] (by simpa using hc.symm)
  simp only [collect_element, cstr_nil, hstr, List.headD_nil, if_true, hget, hel, hc, if_false]
  simp

theorem str_split_loop_empty_sep :
    ∀ (fuel : Nat) (R pre : List Nat) (list : List (Option (List Nat))),
      0 ∉ R → R.length < fuel →
      str_split_loop [] fuel (pre ++ R ++ [0]) pre.length list =
        some (list ++ R.map (fun c => some [c]) ++ [some []]) := by
  intro fuel
  induction fuel with
  | zero => intro R pre list _ hlt; omega
  | succ fuel ih =>
    intro R pre list hR hlt
    cases R with
    | nil =>
      simp only [str_split_loop, collect_element_empty_sep_end]
      simp
    | cons c R1 =>
      have hc : c ≠ 0 := fun h0 => hR (by simp [h0])
      have hR1 : 0 ∉ R1 := fun h => hR (by simp [h])
      have hlt1 : R1.length < fuel := by simpa using hlt
      have hrec := ih R1 (pre ++ [c]) (list ++ [some [c]]) hR1 hlt1
      simp only [List.length_append, List.length_singleton] at hrec
      simp only [str_split_loop, collect_element_empty_sep_char pre R1 c hc, hrec]
      simp

theorem str_split_empty_sep (S : List Nat) (hS : 0 ∉ S) :
    str_split (some S) (some [])
      = some (some ((S.map (fun c => some [c]) ++ [some []]) ++ [none])) := by
  have h := str_split_loop_empty_sep (S.length + 1) S [] [] hS (by omega)
  simp only [List.nil_append, List.length_nil] at h
  simp only [str_split, strdup, strlen, cstr_eq_self S hS, h]

/-- C9 fails on the code: `str_split("abc", "")` has four elements, the last one an
empty string emitted after the last character, and not the three elements
`"a"`, `"b"`, `"c"`. -/
theorem empty_separator_trailing_element :
    str_split (some [97, 98, 99]) (some [])
        = some (some [some [97], some [98], some [99], some [], none]) ∧
    str_split (some [97, 98, 99]) (some [])
        ≠ some (some [some [97], some [98], some [99], none]) := by
  decide

/-- C9, amended: for every non-empty string `S`, `str_split(S, "")` returns
`length(S) + 1` elements: element `i` is the one-character string made of `S[i]`, for
every `i < length(S)`, in order, and the last element is the empty string. -/
theorem split_on_empty_separator (S : List Nat) (hS : 0 ∉ S) (hne : S ≠ []) :
    ∃ list : List (Option (List Nat)),
      str_split (some S) (some []) = some (some (list ++ [none])) ∧
      list.length = S.length + 1 ∧
      (∀ (i : Nat) (hi : i < S.length), list[i]? = some (some [S.get ⟨i, hi⟩])) ∧
      list[S.length]? = some (some []) := by
  have _ := hne
  refine ⟨S.map (fun c => some [c]) ++ [some []], str_split_empty_sep S hS, by simp, ?_, ?_⟩
  · intro i hi
    rw [List.getElem?_append_left (by simpa using hi)]
    simp [List.getElem?_map, List.getElem?_eq_getElem hi]
  · rw [List.getElem?_append_right (by simp)]
    simp

/-- C9, amended, at `S = "a,b,c"`. -/
theorem split_on_empty_separator_witness :
    ∃ list : List (Option (List Nat)),
      str_split (some [97, 44, 98, 44, 99]) (some []) = some (some (list ++ [none])) ∧
      list.length = [97, 44, 98, 44, 99].length + 1 ∧
      (∀ (i : Nat) (hi : i < [97, 44, 98, 44, 99].length),
        list[i]? = some (some [[97, 44, 98, 44, 99].get ⟨i, hi⟩])) ∧
      list[[97, 44, 98, 44, 99].length]? = some (some []) :=
  split_on_empty_separator [97, 44, 98, 44, 99] (by decide) (by decide)

/-- C10: for every string `S` and every non-empty separator `D` that does not occur
in `S`, `str_split(S, D)` returns the one-element list holding `S`. -/
theorem split_without_separator (S D : List Nat) (hS : 0 ∉ S) (hD : 0 ∉ D) (hne : D ≠ [])
    (hnot : ¬ D <:+: S) :
    str_split (some S) (some D) = some (some [some S, none]) := by
  rw [str_split_eq_splitRef S D hS hD hne]
  simp [splitRef, strstr_none_of_not_infix D S hnot, objList]

/-- C10, on the test of str_split.c: `"a,b,c"` split on `"d"`. -/
theorem split_without_separator_witness :
    str_split (some [97, 44, 98, 44, 99]) (some [100])
      = some (some [some [97, 44, 98, 44, 99], none]) :=
  split_without_separator [97, 44, 98, 44, 99] [100] (by decide) (by decide) (by decide)
    (by decide)

/-! ## The elements of a split on a non-empty separator -/

theorem strstr_eq_of_leftmost (D : List Nat) :
    ∀ (S : List Nat) (p : Nat), D <+: S.drop p → (∀ k, k < p → ¬ D <+: S.drop k) →
      strstr D S = some p := by
  intro S
  induction S with
  | nil =>
    intro p hocc hleft
    have hD : D <+: [] := by simpa using hocc
    have hp : p = 0 := by
      by_contra hne
      exact hleft 0 (Nat.pos_of_ne_zero hne) (by simpa using hD)
    have hpre : D.isPrefixOf [] = true := List.isPrefixOf_iff_prefix.mpr hD
    simp [strstr, hpre, hp]
  | cons c t ih =>
    intro p hocc hleft
    by_cases hpre : D.isPrefixOf (c :: t) = true
    · have hp : p = 0 := by
        by_contra hne
        exact hleft 0 (Nat.pos_of_ne_zero hne) (by simpa using List.isPrefixOf_iff_prefix.mp hpre)
      simp [strstr, hpre, hp]
    · cases p with
      | zero => exact absurd (List.isPrefixOf_iff_prefix.mpr (by simpa using hocc)) hpre
      | succ p1 =>
        have hocc1 : D <+: t.drop p1 := by simpa using hocc
        have hleft1 : ∀ k, k < p1 → ¬ D <+: t.drop k := by
          intro k hk
          have := hleft (k + 1) (by omega)
          simpa using this
        have hrec := ih p1 hocc1 hleft1
        simp [strstr, hpre, hrec]

theorem splitRef_fuel (D : List Nat) (hne : D ≠ []) :
    ∀ (f1 f2 : Nat) (R : List Nat), R.length < f1 → R.length < f2 →
      splitRef D f1 R = splitRef D f2 R := by
  intro f1
  induction f1 with
  | zero => intro f2 R h1 _; omega
  | succ f1 ih =>
    intro f2 R h1 h2
    cases f2 with
    | zero => omega
    | succ f2 =>
      cases hs : strstr D R with
      | none => simp [splitRef, hs]
      | some q =>
        have hle := strstr_some_le D R q hs
        have hDpos : 0 < D.length := List.length_pos.mpr hne
        have hlen : (R.drop (q + D.length)).length < R.length := by
          rw [List.length_drop]
          omega
        simp only [splitRef, hs]
        rw [ih f2 (R.drop (q + D.length)) (by omega) (by omega)]

theorem strstr_nil_of_ne_nil (D : List Nat) (hne : D ≠ []) : strstr D [] = none := by
  have hpre : ¬ D.isPrefixOf [] = true := by
    rw [List.isPrefixOf_iff_prefix]
    exact fun h => hne (List.prefix_nil.mp h)
  simp [strstr, hpre]

/-- C11: for a string `S` and a non-empty separator `D` whose leftmost occurrence in
`S` starts at index `p`, `str_split(S, D)` is the text `S[0..p)` followed by the
elements of `str_split(S[p + length(D)..], D)`; when that occurrence ends at the end
of `S`, the result is `S[0..p)` followed by one empty string. -/
theorem split_at_leftmost_occurrence (S D : List Nat) (p : Nat) (hS : 0 ∉ S) (hD : 0 ∉ D)
    (hne : D ≠ []) (hocc : D <+: S.drop p) (hleft : ∀ k, k < p → ¬ D <+: S.drop k) :
    (∃ rest : List (Option (List Nat)),
      str_split (some (S.drop (p + D.length))) (some D) = some (some rest) ∧
      str_split (some S) (some D) = some (some (some (S.take p) :: rest))) ∧
    (p + D.length = S.length →
      str_split (some S) (some D) = some (some [some (S.take p), some [], none])) := by
  have hs := strstr_eq_of_leftmost D S p hocc hleft
  have hle := strstr_some_le D S p hs
  have hS1 : 0 ∉ S.drop (p + D.length) := fun h => hS (List.mem_of_mem_drop h)
  have hDpos : 0 < D.length := List.length_pos.mpr hne
  have hlen : (S.drop (p + D.length)).length < S.length := by
    rw [List.length_drop]
    omega
  have hfuel := splitRef_fuel D hne S.length ((S.drop (p + D.length)).length + 1)
    (S.drop (p + D.length)) hlen (by omega)
  have hmain : str_split (some S) (some D)
      = some (some (some (S.take p) :: objList (splitRef D S.length (S.drop (p + D.length))))) := by
    rw [str_split_eq_splitRef S D hS hD hne]
    simp only [splitRef, hs, objList_cons]
  constructor
  · refine ⟨_, str_split_eq_splitRef _ D hS1 hD hne, ?_⟩
    rw [hmain, hfuel]
  · intro hend
    have hnil : S.drop (p + D.length) = [] := by
      apply List.eq_nil_of_length_eq_zero
      rw [List.length_drop]
      omega
    rw [hmain, hnil]
    cases hS0 : S.length with
    | zero => omega
    | succ n => simp [splitRef, strstr_nil_of_ne_nil D hne, objList]

/-- C11, on a test of str_split.c: `"a,b,c"` split on `"b"`, whose leftmost
occurrence starts at index 2. -/
theorem split_at_leftmost_occurrence_witness :
    (∃ rest : List (Option (List Nat)),
      str_split (some (([97, 44, 98, 44, 99] : List Nat).drop (2 + [98].length))) (some [98])
        = some (some rest) ∧
      str_split (some [97, 44, 98, 44, 99]) (some [98])
        = some (some (some (([97, 44, 98, 44, 99] : List Nat).take 2) :: rest))) ∧
    (2 + [98].length = ([97, 44, 98, 44, 99] : List Nat).length →
      str_split (some [97, 44, 98, 44, 99]) (some [98])
        = some (some [some (([97, 44, 98, 44, 99] : List Nat).take 2), some [], none])) :=
  split_at_leftmost_occurrence [97, 44, 98, 44, 99] [98] 2 (by decide) (by decide) (by decide)
    (by decide) (by decide)

/-- The tests of str_split.c with a separator that occurs in `"a,b,c"`: the
separators `","`, `"b"`, `"c"`, `"a"` and `"a,b,c"`. -/
theorem test_str_split :
    str_split (some [97, 44, 98, 44, 99]) (some [44])
      = some (some [some [97], some [98], some [99], none]) ∧
    str_split (some [97, 44, 98, 44, 99]) (some [98])
      = some (some [some [97, 44], some [44, 99], none]) ∧
    str_split (some [97, 44, 98, 44, 99]) (some [99])
      = some (some [some [97, 44, 98, 44], some [], none]) ∧
    str_split (some [97, 44, 98, 44, 99]) (some [97])
      = some (some [some [], some [44, 98, 44, 99], none]) ∧
    str_split (some [97, 44, 98, 44, 99]) (some [97, 44, 98, 44, 99])
      = some (some [some [], some [], none]) := by
  refine ⟨?_, ?_, ?_, ?_, ?_⟩ <;> decide

/-! ## Null arguments and arbitrary memory contents -/

theorem cstr_no_nul (X : List Nat) : 0 ∉ cstr X := by
  intro h
  have := List.mem_takeWhile_imp h
  simp at this

theorem cstr_idem (X : List Nat) : cstr (cstr X) = cstr X :=
  cstr_eq_self (cstr X) (cstr_no_nul X)

theorem headD_cstr (D : List Nat) : (cstr D).headD 0 = 0 ↔ D.headD 0 = 0 := by
  cases D with
  | nil => simp [cstr]
  | cons d D1 =>
    by_cases hd : d = 0
    · simp [cstr, List.takeWhile_cons, hd]
    · simp [cstr, List.takeWhile_cons, hd]

theorem collect_element_cstr (mem : List Nat) (curr_el : Nat) (D : List Nat) :
    collect_element mem curr_el (cstr D) = collect_element mem curr_el D := by
  have hh : ((cstr D).headD 0 = 0) = (D.headD 0 = 0) := propext (headD_cstr D)
  simp only [collect_element, cstr_idem, strlen, hh]

theorem str_split_loop_cstr (D : List Nat) :
    ∀ (fuel : Nat) (mem : List Nat) (nx : Nat) (list : List (Option (List Nat))),
      str_split_loop (cstr D) fuel mem nx list = str_split_loop D fuel mem nx list := by
  intro fuel
  induction fuel with
  | zero => intro mem nx list; rfl
  | succ fuel ih =>
    intro mem nx list
    simp only [str_split_loop, collect_element_cstr, ih]

theorem str_split_cstr (S D : List Nat) :
    str_split (some (cstr S)) (some (cstr D)) = str_split (some S) (some D) := by
  simp only [str_split, strdup, strlen, cstr_idem, str_split_loop_cstr]

theorem str_split_returns_list (S D : List Nat) :
    ∃ list : List (Option (List Nat)), str_split (some S) (some D) = some (some list) := by
  rw [← str_split_cstr S D]
  by_cases hD : cstr D = []
  · rw [hD]
    exact ⟨_, str_split_empty_sep (cstr S) (cstr_no_nul S)⟩
  · exact ⟨_, str_split_eq_splitRef (cstr S) (cstr D) (cstr_no_nul S) (cstr_no_nul D) hD⟩

/-- C12: `str_split(S, D)` returns `NULL` if and only if `S` is null or `D` is null;
for every non-null `S` and `D`, whatever bytes they point to, the loop ends and
`str_split` returns a list. -/
theorem split_null_iff_null_argument (str delim : Option (List Nat)) :
    (str_split str delim = some none ↔ str = none ∨ delim = none) ∧
    (∀ S D : List Nat, ∃ list : List (Option (List Nat)),
      str_split (some S) (some D) = some (some list)) := by
  refine ⟨?_, str_split_returns_list⟩
  constructor
  · intro h
    cases str with
    | none => exact Or.inl rfl
    | some S =>
      cases delim with
      | none => exact Or.inr rfl
      | some D =>
        obtain ⟨list, hl⟩ := str_split_returns_list S D
        rw [hl] at h
        simp at h
  · intro h
    rcases h with h | h
    · subst h
      simp [str_split]
    · subst h
      cases str <;> simp [str_split]

/-- C12, at concrete arguments: a null separator gives `NULL`, and `"a,b,c"` with
`","` does not. -/
theorem split_null_iff_null_argument_witness :
    str_split (some [97, 44, 98, 44, 99]) none = some none ∧
    ¬ str_split (some [97, 44, 98, 44, 99]) (some [44]) = some none :=
  ⟨(split_null_iff_null_argument (some [97, 44, 98, 44, 99]) none).1.mpr (Or.inr rfl),
   fun h => by
    have := (split_null_iff_null_argument (some [97, 44, 98, 44, 99]) (some [44])).1.mp h
    simp at this⟩

/-! ## More theorems about functools.c -/

theorem filter_loop_objList {α : Type} (P : FilterDataFn α) :
    ∀ (L : List α) (i : Nat) (out : List (Option α)),
      filter_loop P (objList L) i out =
        out ++ ((L.enumFrom i).filter (fun e => decide (P e.2 e.1 ≠ 0))).map
          (fun e => some e.2) := by
  intro L
  induction L with
  | nil => intro i out; simp [objList_nil, filter_loop]
  | cons x rest ih =>
    intro i out
    rw [objList_cons]
    by_cases h : P x i = 0
    · simp [filter_loop, List.enumFrom_cons, List.filter_cons, h, ih]
    · simp [filter_loop, List.enumFrom_cons, List.filter_cons, h, ih]

/-- C13: on a non-empty boxed list `L`, `filter` returns, followed by the sentinel,
exactly the elements `L[i]` themselves for which `P(L[i], i) != 0`, where `i` is the
position in `L`, in their original relative order. -/
theorem filter_selects_original_elements {α : Type} (P : FilterDataFn α) (L : List α)
    (hL : L ≠ []) :
    ∃ out : List α,
      filter (some P) (some (objList L)) = some (objList out) ∧
      out = (L.enum.filter (fun e => decide (P e.2 e.1 ≠ 0))).map Prod.snd ∧
      out.Sublist L := by
  refine ⟨_, ?_, rfl, ?_⟩
  · cases L with
    | nil => exact absurd rfl hL
    | cons x rest =>
      simp only [filter, slot0_objList_cons, filter_loop_objList, List.nil_append]
      simp [objList, List.enum_eq_enumFrom, Function.comp_def]
  · have h := ((List.filter_sublist (p := fun e => decide (P e.2 e.1 ≠ 0)) L.enum)).map Prod.snd
    rwa [List.enum_map_snd] at h

/-- The test `test_filter`: `is_even` over the boxed list `1, 2, 3, 4, 5`. -/
theorem test_filter :
    filter (some is_even) (some (objList [1, 2, 3, 4, 5])) = some [some 2, some 4, none] := by
  decide

/-- C13, on the test of functools.c: `is_even` over the boxed list `1, 2, 3, 4, 5`. -/
theorem filter_selects_original_elements_witness :
    ∃ out : List Int,
      filter (some is_even) (some (objList [1, 2, 3, 4, 5])) = some (objList out) ∧
      out = (([1, 2, 3, 4, 5] : List Int).enum.filter
              (fun e => decide (is_even e.2 e.1 ≠ 0))).map Prod.snd ∧
      out.Sublist [1, 2, 3, 4, 5] :=
  filter_selects_original_elements is_even [1, 2, 3, 4, 5] (by decide)

theorem map_data_loop_eq {β : Type} (T : MapDataFn (List Nat) β) (B : List Nat) (el_len : Nat) :
    ∀ (n : Nat) (pre junk : List (Option β)), n < junk.length →
      map_data_loop T B el_len n pre.length (pre ++ junk) =
        pre ++ (List.range' pre.length n).map (fun j => T (elemAt B el_len j) j)
          ++ junk.drop n := by
  intro n
  induction n with
  | zero => intro pre junk _; simp [map_data_loop]
  | succ n ih =>
    intro pre junk hj
    cases junk with
    | nil => simp at hj
    | cons g junk1 =>
      have hj1 : n < junk1.length := by simpa using hj
      have h := ih (pre ++ [T (elemAt B el_len pre.length) pre.length]) junk1 hj1
      simp only [List.length_append, List.length_singleton] at h
      rw [map_data_loop, set_at_length, h]
      simp [List.range'_succ]

theorem map_data_eq {β : Type} (T : MapDataFn (List Nat) β) (B : List Nat)
    (el_len el_count : Nat) (hlen : 0 < el_len) (hcount : 0 < el_count) :
    map_data (some T) (some B) el_len el_count =
      some ((List.range el_count).map (fun j => T (elemAt B el_len j) j) ++ [none]) := by
  have h : ¬ (el_len = 0 ∨ el_count = 0) := by omega
  have hloop := map_data_loop_eq T B el_len el_count []
    (List.replicate (el_count + 1) none) (by simp)
  simp only [List.length_nil, List.nil_append] at hloop
  simp only [map_data, h, if_false, hloop]
  have hset := set_at_length ((List.range' 0 el_count).map (fun j => T (elemAt B el_len j) j))
    (none : Option β) none []
  simp only [List.length_map, List.length_range', List.append_nil] at hset
  simp only [List.drop_replicate, Nat.add_sub_cancel_left, List.replicate_one, hset,
    List.range_eq_range']

/-- C14: on a flat buffer `B` with `el_len > 0` and `el_count = n > 0`, `map_data`
returns an array of exactly `n` element slots followed by the sentinel, and slot `j`
holds `T(B[j], j)` for every `j < n`; no element is dropped. -/
theorem map_data_maps_every_element {β : Type} (T : MapDataFn (List Nat) β) (B : List Nat)
    (el_len el_count : Nat) (hlen : 0 < el_len) (hcount : 0 < el_count) :
    ∃ out : List (Option β),
      map_data (some T) (some B) el_len el_count = some (out ++ [none]) ∧
      out.length = el_count ∧
      ∀ j, j < el_count → out[j]? = some (T (elemAt B el_len j) j) := by
  refine ⟨_, map_data_eq T B el_len el_count hlen hcount, by simp, ?_⟩
  intro j hj
  simp [List.getElem?_map, List.getElem?_range hj]

/-- The test `test_map_data`: `cube` over the `int` buffer `{1, 2, 3, 4, 5}`. -/
theorem test_map_data :
    map_data (some (fun b i => cube (readInt b) i))
        (some [1, 0, 0, 0, 2, 0, 0, 0, 3, 0, 0, 0, 4, 0, 0, 0, 5, 0, 0, 0]) 4 5
      = some [some 1, some 8, some 27, some 64, some 125, none] := by
  decide

/-- C14, on the test of functools.c: `cube` over the `int` buffer `{1, 2, 3, 4, 5}`. -/
theorem map_data_maps_every_element_witness :
    ∃ out : List (Option Int),
      map_data (some (fun b i => cube (readInt b) i))
        (some [1, 0, 0, 0, 2, 0, 0, 0, 3, 0, 0, 0, 4, 0, 0, 0, 5, 0, 0, 0]) 4 5
          = some (out ++ [none]) ∧
      out.length = 5 ∧
      ∀ j, j < 5 → out[j]? = some ((fun b i => cube (readInt b) i)
        (elemAt [1, 0, 0, 0, 2, 0, 0, 0, 3, 0, 0, 0, 4, 0, 0, 0, 5, 0, 0, 0] 4 j) j) :=
  map_data_maps_every_element (fun b i => cube (readInt b) i)
    [1, 0, 0, 0, 2, 0, 0, 0, 3, 0, 0, 0, 4, 0, 0, 0, 5, 0, 0, 0] 4 5 (by decide) (by decide)

theorem listAcc_succ_at {α β : Type} (C : ReduceDataFn α β) (I : Option β) (pre : List α)
    (x : α) (rest : List α) :
    listAcc C (pre ++ x :: rest) I (pre.length + 1)
      = C (listAcc C (pre ++ x :: rest) I pre.length) x pre.length := by
  have hget : (pre ++ x :: rest).get? pre.length = some x := by
    rw [List.get?_eq_getElem?, List.getElem?_append_right (le_refl _)]
    simp
  simp only [listAcc, hget]

theorem reduce_loop_listAcc {α β : Type} (C : ReduceDataFn α β) (I : Option β) :
    ∀ (rest pre : List α),
      reduce_loop C (objList rest) pre.length (listAcc C (pre ++ rest) I pre.length)
        = listAcc C (pre ++ rest) I (pre ++ rest).length := by
  intro rest
  induction rest with
  | nil => intro pre; simp [objList_nil, reduce_loop]
  | cons x r ih =>
    intro pre
    have h := ih (pre ++ [x])
    simp only [List.append_assoc, List.singleton_append, List.length_append,
      List.length_singleton] at h
    rw [listAcc_succ_at] at h
    rw [objList_cons, reduce_loop]
    simp only [List.length_append]
    exact h

/-- C15: on a non-empty boxed list `L` of `n` elements, `reduce(C, L, I)` is the
accumulator `acc_n` of the left fold `acc_0 = I`, `acc_{k+1} = C(acc_k, L[k], k)`, for
every combine function `C` and every initial value `I`, a null one included. -/
theorem reduce_is_left_fold {α β : Type} (C : ReduceDataFn α β) (L : List α) (I : Option β)
    (hL : L ≠ []) :
    reduce (some C) (some (objList L)) I = listAcc C L I L.length := by
  cases L with
  | nil => exact absurd rfl hL
  | cons x rest =>
    have h := reduce_loop_listAcc C I (x :: rest) []
    have h0 : listAcc C (x :: rest) I 0 = I := rfl
    simp only [List.nil_append, List.length_nil, h0] at h
    simp only [reduce, slot0_objList_cons, h]

/-- The test `test_reduce`: `sum` over the boxed list `1, 2, 3, 4, 5` with a null
initial value. -/
theorem test_reduce :
    reduce (some sum) (some (objList [1, 2, 3, 4, 5])) none = some 15 := by
  decide

/-- C15, on the test of functools.c: `sum` over the boxed list `1, 2, 3, 4, 5` with a
null initial value. -/
theorem reduce_is_left_fold_witness :
    reduce (some sum) (some (objList [1, 2, 3, 4, 5])) none
      = listAcc sum [1, 2, 3, 4, 5] none ([1, 2, 3, 4, 5] : List Int).length :=
  reduce_is_left_fold sum [1, 2, 3, 4, 5] none (by decide)

/-! ## More theorems about str_join.c -/

theorem joinWith_no_nul (D : List Nat) (hD : 0 ∉ D) :
    ∀ els : List (List Nat), (∀ e ∈ els, 0 ∉ e) → 0 ∉ joinWith D els := by
  intro els
  induction els with
  | nil => intro _; simp [joinWith]
  | cons x rest ih =>
    intro hels
    have hx : 0 ∉ x := hels x (by simp)
    have hrest : ∀ e ∈ rest, 0 ∉ e := fun e he => hels e (by simp [he])
    cases rest with
    | nil => simpa [joinWith] using hx
    | cons y rest1 =>
      rw [joinWith_cons_of_ne_nil D x (y :: rest1) (by simp)]
      simp only [List.mem_append, not_or]
      exact ⟨⟨hx, hD⟩, ih hrest⟩

theorem str_join_len_objList (D : List Nat) :
    ∀ (els : List (List Nat)) (len : Nat), (∀ e ∈ els, 0 ∉ e) →
      str_join_len D.length (objList els) len = len + (joinWith D els).length := by
  intro els
  induction els with
  | nil => intro len _; simp [objList_nil, str_join_len, joinWith]
  | cons x rest ih =>
    intro len hels
    have hx : 0 ∉ x := hels x (by simp)
    have hrest : ∀ e ∈ rest, 0 ∉ e := fun e he => hels e (by simp [he])
    cases rest with
    | nil =>
      simp [objList_cons, objList_nil, str_join_len, slot0, joinWith, strlen,
        cstr_eq_self x hx]
    | cons y rest1 =>
      rw [objList_cons, str_join_len, slot0_objList_cons]
      simp only [Option.isSome_some, if_true]
      rw [ih _ hrest, joinWith_cons_of_ne_nil D x (y :: rest1) (by simp)]
      simp only [strlen, cstr_eq_self x hx, List.length_append]
      omega

/-- C16: for every sentinel-terminated list of strings `L` and every separator string
`sep`, `str_join(L, sep)` is the elements of `L` concatenated in order with `sep`
between each pair of consecutive elements and nowhere else; the empty list gives
the empty string. -/
theorem str_join_joins_with_separator (L : List (List Nat)) (sep : List Nat)
    (hL : ∀ e ∈ L, 0 ∉ e) (hsep : 0 ∉ sep) :
    str_join (objList L) sep = joinWith sep L ∧ str_join (objList []) sep = [] := by
  constructor
  · exact str_join_objList sep hsep L hL (joinWith_no_nul sep hsep L hL)
  · simp [str_join, objList_nil, str_join_loop, cstr]

/-- The tests of `test_join` in str_join.c. -/
theorem test_join :
    str_join (objList [[97], [98], [99]]) [44] = [97, 44, 98, 44, 99] ∧
    str_join (objList [[97], [98], [99]]) [] = [97, 98, 99] ∧
    str_join (objList [[97], [98], [99]]) [32] = [97, 32, 98, 32, 99] ∧
    str_join (objList [[97], [98], [99]]) [49, 50, 51] = [97, 49, 50, 51, 98, 49, 50, 51, 99] ∧
    str_join (objList [[97], [], [99]]) [49, 50, 51] = [97, 49, 50, 51, 49, 50, 51, 99] ∧
    str_join (objList [[97], [98], []]) [49, 50, 51] = [97, 49, 50, 51, 98, 49, 50, 51] ∧
    str_join (objList [[], [98], [99]]) [49, 50, 51] = [49, 50, 51, 98, 49, 50, 51, 99] := by
  refine ⟨?_, ?_, ?_, ?_, ?_, ?_, ?_⟩ <;> decide

/-- C16, on a test of str_join.c: the list `"a"`, `""`, `"c"` with separator `"123"`. -/
theorem str_join_joins_with_separator_witness :
    str_join (objList [[97], [], [99]]) [49, 50, 51] = joinWith [49, 50, 51] [[97], [], [99]] ∧
    str_join (objList []) [49, 50, 51] = [] :=
  str_join_joins_with_separator [[97], [], [99]] [49, 50, 51] (by decide) (by decide)

/-! ## Theorems about str_set.c -/

theorem str_contains_loop_append (c : Nat) :
    ∀ (acc tail : List Nat), 0 ∉ acc →
      str_contains_loop c (acc ++ tail) = if c ∈ acc then 1 else str_contains_loop c tail := by
  intro acc
  induction acc with
  | nil => intro tail _; simp
  | cons a rest ih =>
    intro tail h0
    have ha : a ≠ 0 := fun h => h0 (by simp [h])
    have hrest : 0 ∉ rest := fun h => h0 (by simp [h])
    by_cases hac : a = c
    · subst hac
      simp [str_contains_loop, ha]
    · have hca : ¬ c = a := fun h => hac h.symm
      simp [str_contains_loop, ha, hac, hca, ih tail hrest]

theorem str_contains_buffer (c : Nat) (hc : c ≠ 0) (acc : List Nat) (h0 : 0 ∉ acc) (k : Nat) :
    str_contains (some (acc ++ List.replicate (k + 1) 0)) c = if c ∈ acc then 1 else 0 := by
  simp [str_contains, hc, str_contains_loop_append c acc _ h0, List.replicate_succ,
    str_contains_loop]

theorem str_contains_string (c : Nat) (R : List Nat) (h0 : 0 ∉ R) :
    str_contains (some R) c = if c ≠ 0 ∧ c ∈ R then 1 else 0 := by
  by_cases hc : c = 0
  · simp [str_contains, hc]
  · have h := str_contains_loop_append c R [] h0
    simp only [List.append_nil] at h
    simp [str_contains, hc, h, str_contains_loop]

theorem str_set_loop_eq :
    ∀ (todo done acc : List Nat) (k : Nat), todo.length < k → 0 ∉ acc → 0 ∉ todo →
      ∃ m, 0 < m ∧
        str_set_loop (done ++ todo) todo.length done.length (acc ++ List.replicate k 0)
          acc.length = setAcc acc todo ++ List.replicate m 0 := by
  intro todo
  induction todo with
  | nil =>
    intro done acc k hk _ _
    exact ⟨k, by simpa using hk, by simp [str_set_loop, setAcc]⟩
  | cons c t ih =>
    intro done acc k hk hacc htodo
    have hc : c ≠ 0 := fun h => htodo (by simp [h])
    have ht : 0 ∉ t := fun h => htodo (by simp [h])
    have hget : (done ++ c :: t).getD done.length 0 = c := by
      have h1 : (done ++ c :: t)[done.length]? = some c := by
        rw [List.getElem?_append_right (le_refl _)]
        simp
      rw [List.getD_eq_getElem?_getD, h1]
      rfl
    have hdone : done ++ c :: t = (done ++ [c]) ++ t := by simp
    obtain ⟨k1, hk1⟩ : ∃ k1, k = k1 + 1 := ⟨k - 1, by simp at hk; omega⟩
    subst hk1
    have hlen : (done ++ [c]).length = done.length + 1 := by simp
    by_cases hmem : c ∈ acc
    · obtain ⟨m, hm, hrec⟩ := ih (done ++ [c]) acc (k1 + 1) (by simp at hk; omega) hacc ht
      refine ⟨m, hm, ?_⟩
      rw [hlen, ← hdone] at hrec
      simp only [List.length_cons, str_set_loop, hget, str_contains_buffer c hc acc hacc k1,
        hmem, if_true, one_ne_zero, if_false, setAcc]
      exact hrec
    · have hacc1 : 0 ∉ acc ++ [c] := by
        simp only [List.mem_append, List.mem_singleton, not_or]
        exact ⟨hacc, fun h => hc h.symm⟩
      obtain ⟨m, hm, hrec⟩ := ih (done ++ [c]) (acc ++ [c]) k1 (by simp at hk; omega) hacc1 ht
      refine ⟨m, hm, ?_⟩
      rw [hlen, ← hdone] at hrec
      have hset : (acc ++ List.replicate (k1 + 1) 0).set acc.length c
          = (acc ++ [c]) ++ List.replicate k1 0 := by
        rw [List.replicate_succ, set_at_length]
      simp only [List.length_append, List.length_singleton] at hrec
      simp only [List.length_cons, str_set_loop, hget, str_contains_buffer c hc acc hacc k1,
        hmem, if_false, if_true, setAcc, hset]
      exact hrec

theorem setAcc_eq :
    ∀ (t acc : List Nat),
      setAcc acc t = acc ++ (firstOccurrences t).filter (fun x => decide (x ∉ acc)) := by
  intro t
  induction t with
  | nil => intro acc; simp [setAcc, firstOccurrences]
  | cons c rest ih =>
    intro acc
    by_cases hmem : c ∈ acc
    · simp only [setAcc, hmem, if_true, ih, firstOccurrences, List.filter_cons,
        not_true_eq_false, decide_False, Bool.false_eq_true, if_false, List.filter_filter]
      congr 1
      apply List.filter_congr
      intro x _
      by_cases hx : x ∈ acc
      · simp [hx]
      · have hxc : x ≠ c := fun h => hx (h ▸ hmem)
        simp [hx, hxc]
    · simp only [setAcc, hmem, if_false, ih, firstOccurrences, List.filter_cons,
        not_false_eq_true, decide_True, if_true, List.filter_filter, List.append_assoc,
        List.singleton_append]
      congr 2
      apply List.filter_congr
      intro x _
      by_cases hxc : x = c
      · simp [hxc]
      · by_cases hx : x ∈ acc
        · simp [hx, hxc]
        · simp [hx, hxc]

theorem mem_firstOccurrences :
    ∀ (s : List Nat) (x : Nat), x ∈ firstOccurrences s ↔ x ∈ s := by
  intro s
  induction s with
  | nil => intro x; simp [firstOccurrences]
  | cons c rest ih =>
    intro x
    by_cases hxc : x = c
    · simp [firstOccurrences, hxc]
    · simp [firstOccurrences, List.mem_filter, ih, hxc]

theorem nodup_firstOccurrences : ∀ s : List Nat, (firstOccurrences s).Nodup := by
  intro s
  induction s with
  | nil => simp [firstOccurrences]
  | cons c rest ih =>
    simp only [firstOccurrences, List.nodup_cons]
    exact ⟨by simp [List.mem_filter], ih.filter _⟩

theorem str_set_eq (s : List Nat) (hs : 0 ∉ s) :
    str_set (some s) = some (firstOccurrences s) := by
  obtain ⟨m, hm, hloop⟩ := str_set_loop_eq s [] [] (s.length + 1) (by omega) (by simp) hs
  simp only [List.nil_append, List.length_nil] at hloop
  have hacc : setAcc [] s = firstOccurrences s := by
    rw [setAcc_eq]
    simp
  have hno : 0 ∉ firstOccurrences s := fun h => hs ((mem_firstOccurrences s 0).mp h)
  obtain ⟨m1, hm1⟩ : ∃ m1, m = m1 + 1 := ⟨m - 1, by omega⟩
  rw [hacc, hm1] at hloop
  simp only [str_set, strlen, cstr_eq_self s hs, hloop]
  rw [List.replicate_succ, cstr_append_nul _ _ hno]

/-- C17: for every non-null string `s`, `str_set(s)` is the string of the distinct
characters of `s` in order of first occurrence: no character occurs in it twice, and
`str_contains(str_set(s), c) = str_contains(s, c)` for every character `c`;
`str_set(NULL)` is `NULL` and `str_set("")` is the empty string. -/
theorem str_set_distinct_characters (s : List Nat) (hs : 0 ∉ s) :
    (∃ r : List Nat,
      str_set (some s) = some r ∧
      r = firstOccurrences s ∧
      r.Nodup ∧
      ∀ c : Nat, str_contains (some r) c = str_contains (some s) c) ∧
    str_set none = none ∧
    str_set (some []) = some [] := by
  refine ⟨⟨_, str_set_eq s hs, rfl, nodup_firstOccurrences s, ?_⟩, rfl, ?_⟩
  · intro c
    have hno : 0 ∉ firstOccurrences s := fun h => hs ((mem_firstOccurrences s 0).mp h)
    rw [str_contains_string c _ hno, str_contains_string c s hs]
    simp only [mem_firstOccurrences]
  · exact str_set_eq [] (by simp)

/-- The test `test_str_set`: `str_set("abcabc")` has length 3, contains `a`, `b` and
`c`, and does not contain `d`. -/
theorem test_str_set :
    str_set (some [97, 98, 99, 97, 98, 99]) = some [97, 98, 99] ∧
    str_contains (str_set (some [97, 98, 99, 97, 98, 99])) 97 = 1 ∧
    str_contains (str_set (some [97, 98, 99, 97, 98, 99])) 98 = 1 ∧
    str_contains (str_set (some [97, 98, 99, 97, 98, 99])) 99 = 1 ∧
    str_contains (str_set (some [97, 98, 99, 97, 98, 99])) 100 = 0 := by
  refine ⟨?_, ?_, ?_, ?_, ?_⟩ <;> decide

/-- C17, on the test of str_set.c: `s = "abcabc"`. -/
theorem str_set_distinct_characters_witness :
    (∃ r : List Nat,
      str_set (some [97, 98, 99, 97, 98, 99]) = some r ∧
      r = firstOccurrences [97, 98, 99, 97, 98, 99] ∧
      r.Nodup ∧
      ∀ c : Nat, str_contains (some r) c = str_contains (some [97, 98, 99, 97, 98, 99]) c) ∧
    str_set none = none ∧
    str_set (some []) = some [] :=
  str_set_distinct_characters [97, 98, 99, 97, 98, 99] (by decide)

/-! ## More theorems about str_split.c -/

/-- C18: for every string `S` and every index `i < length(S)`, element `i` of
`str_split(S, "")` is the one-character string made of `S[i]`. -/
theorem empty_separator_element_is_character (S : List Nat) (hS : 0 ∉ S) (i : Nat)
    (hi : i < S.length) :
    ∃ list : List (Option (List Nat)),
      str_split (some S) (some []) = some (some list) ∧
      list[i]? = some (some [S.get ⟨i, hi⟩]) := by
  refine ⟨_, str_split_empty_sep S hS, ?_⟩
  rw [List.append_assoc, List.getElem?_append_left (by simpa using hi)]
  simp [List.getElem?_map, List.getElem?_eq_getElem hi]

/-- C18, on the test of str_split.c: element 3 of `str_split("a,b,c", "")` is `","`. -/
theorem empty_separator_element_is_character_witness :
    ∃ list : List (Option (List Nat)),
      str_split (some [97, 44, 98, 44, 99]) (some []) = some (some list) ∧
      list[3]? = some (some [([97, 44, 98, 44, 99] : List Nat).get ⟨3, by decide⟩]) :=
  empty_separator_element_is_character [97, 44, 98, 44, 99] (by decide) 3 (by decide)

theorem joinWith_characters :
    ∀ S : List Nat, joinWith [] (S.map (fun c => [c]) ++ [[]]) = S := by
  intro S
  induction S with
  | nil => rfl
  | cons c t ih =>
    rw [List.map_cons, List.cons_append, joinWith_cons_of_ne_nil [] [c] _ (by simp), ih]
    rfl

/-- C19: for every string `S`, splitting on the empty separator and joining the
result with the empty separator gives `S` back. -/
theorem split_join_empty_separator (S : List Nat) (hS : 0 ∉ S) :
    ∃ list : List (Option (List Nat)),
      str_split (some S) (some []) = some (some list) ∧ str_join list [] = S := by
  refine ⟨_, str_split_empty_sep S hS, ?_⟩
  have hobj : (S.map (fun c => some [c]) ++ [some []]) ++ [none]
      = objList (S.map (fun c => [c]) ++ [[]]) := by
    simp [objList, List.map_map, Function.comp_def]
  have hels : ∀ e ∈ S.map (fun c => [c]) ++ [[]], 0 ∉ e := by
    intro e he
    simp only [List.mem_append, List.mem_map, List.mem_singleton] at he
    rcases he with ⟨c, hc, rfl⟩ | rfl
    · simpa using fun h : 0 = c => hS (h ▸ hc)
    · simp
  rw [hobj, str_join_objList [] (by simp) _ hels (by rw [joinWith_characters]; exact hS),
    joinWith_characters]

/-- C19, at `S = "abc"`. -/
theorem split_join_empty_separator_witness :
    ∃ list : List (Option (List Nat)),
      str_split (some [97, 98, 99]) (some []) = some (some list) ∧
      str_join list [] = [97, 98, 99] :=
  split_join_empty_separator [97, 98, 99] (by decide)

theorem not_infix_of_strstr_none (D : List Nat) :
    ∀ R : List Nat, strstr D R = none → ¬ D <:+: R := by
  intro R
  induction R with
  | nil =>
    intro h hin
    have hD : D = [] := List.infix_nil.mp hin
    simp [strstr, hD] at h
  | cons c t ih =>
    intro h hin
    by_cases hp : D.isPrefixOf (c :: t) = true
    · simp [strstr, hp] at h
    · have ht : strstr D t = none := by
        cases hs : strstr D t with
        | none => rfl
        | some off => simp [strstr, hp, hs] at h
      rcases List.infix_cons_iff.mp hin with hpre | hin1
      · exact hp (List.isPrefixOf_iff_prefix.mpr hpre)
      · exact ih ht hin1

theorem not_infix_take_of_strstr_some (D : List Nat) (hne : D ≠ []) :
    ∀ (R : List Nat) (q : Nat), strstr D R = some q → ¬ D <:+: R.take q := by
  intro R
  induction R with
  | nil =>
    intro q _ hin
    exact hne (List.infix_nil.mp (by simpa using hin))
  | cons c t ih =>
    intro q h hin
    by_cases hp : D.isPrefixOf (c :: t) = true
    · simp only [strstr, hp, if_true, Option.some.injEq] at h
      subst h
      exact hne (List.infix_nil.mp (by simpa using hin))
    · cases hs : strstr D t with
      | none => simp [strstr, hp, hs] at h
      | some off =>
        simp only [strstr, hp, hs, Bool.false_eq_true, if_false, Option.some.injEq] at h
        subst h
        rw [List.take_succ_cons] at hin
        rcases List.infix_cons_iff.mp hin with hpre | hin1
        · have hpre1 : D <+: c :: t :=
            hpre.trans ((List.prefix_cons_inj c).mpr (List.take_prefix off t))
          exact hp (List.isPrefixOf_iff_prefix.mpr hpre1)
        · exact ih off hs hin1

theorem splitRef_no_separator (D : List Nat) (hne : D ≠ []) :
    ∀ (fuel : Nat) (R : List Nat), R.length < fuel →
      ∀ e ∈ splitRef D fuel R, ¬ D <:+: e := by
  intro fuel
  induction fuel with
  | zero => intro R hlt; omega
  | succ fuel ih =>
    intro R hlt e he
    cases hs : strstr D R with
    | none =>
      simp only [splitRef, hs, List.mem_singleton] at he
      rw [he]
      exact not_infix_of_strstr_none D R hs
    | some q =>
      simp only [splitRef, hs, List.mem_cons] at he
      rcases he with he | he
      · rw [he]
        exact not_infix_take_of_strstr_some D hne R q hs
      · have hle := strstr_some_le D R q hs
        have hDpos : 0 < D.length := List.length_pos.mpr hne
        have hlt1 : (R.drop (q + D.length)).length < fuel := by
          rw [List.length_drop]
          omega
        exact ih _ hlt1 e he

/-- C20: for every string `S` and every non-empty separator `D`, no element of
`str_split(S, D)` contains `D` as a substring. -/
theorem split_elements_exclude_separator (S D : List Nat) (hS : 0 ∉ S) (hD : 0 ∉ D)
    (hne : D ≠ []) :
    ∃ list : List (List Nat),
      str_split (some S) (some D) = some (some (objList list)) ∧
      ∀ e ∈ list, ¬ D <:+: e :=
  ⟨_, str_split_eq_splitRef S D hS hD hne,
    splitRef_no_separator D hne (S.length + 1) S (by omega)⟩

/-- C20, at `S = "aaa"` and `D = "aa"`, where occurrences of the separator overlap. -/
theorem split_elements_exclude_separator_witness :
    ∃ list : List (List Nat),
      str_split (some [97, 97, 97]) (some [97, 97]) = some (some (objList list)) ∧
      ∀ e ∈ list, ¬ [97, 97] <:+: e :=
  split_elements_exclude_separator [97, 97, 97] [97, 97] (by decide) (by decide) (by decide)

/-! ## Splitting a joined list, and termination of the split loop -/

theorem strstr_char_after (c : Nat) :
    ∀ (x R : List Nat), c ∉ x → strstr [c] (x ++ c :: R) = some x.length := by
  intro x
  induction x with
  | nil => intro R _; simp [strstr, List.isPrefixOf]
  | cons a x1 ih =>
    intro R hx
    have hac : ¬ c = a := fun h => hx (by simp [h])
    have hx1 : c ∉ x1 := fun h => hx (by simp [h])
    simp [strstr, List.isPrefixOf, hac, ih R hx1]

theorem splitRef_joinWith (c : Nat) :
    ∀ (L : List (List Nat)) (fuel : Nat), L ≠ [] → (∀ e ∈ L, c ∉ e) →
      (joinWith [c] L).length < fuel → splitRef [c] fuel (joinWith [c] L) = L := by
  intro L
  induction L with
  | nil => intro fuel h; exact absurd rfl h
  | cons x rest ih =>
    intro fuel _ hL hlt
    have hx : c ∉ x := hL x (by simp)
    have hrest : ∀ e ∈ rest, c ∉ e := fun e he => hL e (by simp [he])
    cases fuel with
    | zero => omega
    | succ fuel =>
      cases rest with
      | nil =>
        have hnone : strstr [c] x = none :=
          strstr_none_of_not_infix [c] x (fun h => hx (h.subset (List.mem_singleton_self c)))
        simp [joinWith, splitRef, hnone]
      | cons y rest1 =>
        have hj : joinWith [c] (x :: y :: rest1) = x ++ c :: joinWith [c] (y :: rest1) := by
          rw [joinWith_cons_of_ne_nil [c] x (y :: rest1) (by simp)]
          simp
        rw [hj] at hlt ⊢
        have hlt1 : (joinWith [c] (y :: rest1)).length < fuel := by
          simp only [List.length_append, List.length_cons] at hlt
          omega
        have hrec := ih fuel (by simp) hrest hlt1
        have hdrop : (x ++ c :: joinWith [c] (y :: rest1)).drop (x.length + 1)
            = joinWith [c] (y :: rest1) := by
          rw [show x ++ c :: joinWith [c] (y :: rest1)
            = (x ++ [c]) ++ joinWith [c] (y :: rest1) by simp]
          exact List.drop_left' (by simp)
        simp only [splitRef, strstr_char_after c x _ hx, List.length_singleton, hdrop, hrec,
          List.take_left']

/-- C21: for every character `c` other than NUL and every non-empty list of strings
`L` none of whose elements contains `c`, splitting `str_join(L, [c])` on `[c]` gives
`L` back. -/
theorem join_split_round_trip (c : Nat) (L : List (List Nat)) (hc : c ≠ 0) (hL : L ≠ [])
    (hnul : ∀ e ∈ L, 0 ∉ e) (hsep : ∀ e ∈ L, c ∉ e) :
    str_split (some (str_join (objList L) [c])) (some [c]) = some (some (objList L)) := by
  have hc0 : 0 ∉ [c] := by simpa using hc.symm
  have hj0 : 0 ∉ joinWith [c] L := joinWith_no_nul [c] hc0 L hnul
  rw [str_join_objList [c] hc0 L hnul hj0,
    str_split_eq_splitRef (joinWith [c] L) [c] hj0 hc0 (by simp),
    splitRef_joinWith c L _ hL hsep (by omega)]

/-- C21, at `c = ','` and the list `"a"`, `""`, `"bc"`. -/
theorem join_split_round_trip_witness :
    str_split (some (str_join (objList [[97], [], [98, 99]]) [44])) (some [44])
      = some (some (objList [[97], [], [98, 99]])) :=
  join_split_round_trip 44 [[97], [], [98, 99]] (by decide) (by decide) (by decide) (by decide)

theorem str_split_loop_length (D : List Nat) :
    ∀ (fuel : Nat) (mem : List Nat) (nx : Nat) (list out : List (Option (List Nat))),
      str_split_loop D fuel mem nx list = some out →
        list.length < out.length ∧ out.length ≤ list.length + fuel := by
  intro fuel
  induction fuel with
  | zero => intro mem nx list out h; simp [str_split_loop] at h
  | succ fuel ih =>
    intro mem nx list out h
    simp only [str_split_loop] at h
    split at h
    · have := ih _ _ _ _ h
      simp only [List.length_append, List.length_singleton] at this
      omega
    · simp only [Option.some.injEq] at h
      subst h
      simp

theorem collect_element_advances (pre R D : List Nat) (hR : 0 ∉ R)
    (hnext : (collect_element (pre ++ R ++ [0]) pre.length D).1.next = 1) :
    pre.length < (collect_element (pre ++ R ++ [0]) pre.length D).1.nx ∧
    (collect_element (pre ++ R ++ [0]) pre.length D).1.nx ≤ pre.length + R.length ∧
    ∃ pre1 R1 : List Nat,
      (collect_element (pre ++ R ++ [0]) pre.length D).2 = pre1 ++ R1 ++ [0] ∧
      pre1.length = (collect_element (pre ++ R ++ [0]) pre.length D).1.nx ∧
      0 ∉ R1 := by
  rw [← collect_element_cstr] at hnext ⊢
  by_cases hD : cstr D = []
  · rw [hD] at hnext ⊢
    cases R with
    | nil =>
      rw [collect_element_empty_sep_end] at hnext
      simp at hnext
    | cons c R1 =>
      have hc : c ≠ 0 := fun h0 => hR (by simp [h0])
      have hR1 : 0 ∉ R1 := fun h => hR (by simp [h])
      rw [collect_element_empty_sep_char pre R1 c hc]
      refine ⟨by simp, by simp, pre ++ [c], R1, rfl, by simp, hR1⟩
  · cases hs : strstr (cstr D) R with
    | none =>
      rw [collect_element_not_found pre R (cstr D) hR (cstr_no_nul D) hs] at hnext
      simp at hnext
    | some q =>
      obtain ⟨pre1, hce, hlen⟩ :=
        collect_element_found pre R (cstr D) q hR (cstr_no_nul D) hD hs
      have hle := strstr_some_le (cstr D) R q hs
      have hDpos : 0 < (cstr D).length := List.length_pos.mpr hD
      rw [hce]
      refine ⟨by simp only; omega, by simp only; omega, pre1, R.drop (q + (cstr D).length),
        rfl, hlen, fun h => hR (List.mem_of_mem_drop h)⟩

theorem str_split_iterations (S D : List Nat) :
    ∃ list : List (Option (List Nat)),
      str_split (some S) (some D) = some (some (list ++ [none])) ∧
      0 < list.length ∧ list.length ≤ strlen S + 1 := by
  obtain ⟨out, hout⟩ := str_split_returns_list S D
  simp only [str_split] at hout
  cases hloop : str_split_loop D (strlen S + 1) (strdup S ++ [0]) 0 [] with
  | none => simp [hloop] at hout
  | some list =>
    have hlen := str_split_loop_length D _ _ _ _ _ hloop
    simp only [List.length_nil, Nat.zero_add] at hlen
    exact ⟨list, by simp [str_split, hloop], hlen.1, hlen.2⟩

/-- C22: `str_split` terminates on every non-null string `S` and separator `D`, empty
or not. Whenever `collect_element`, called at a cursor of the working copy, reports
`next = 1`, the cursor `nx` it returns is strictly beyond the cursor it was given and
not beyond the terminating NUL of the working copy, and the working copy keeps its
shape; the loop of `str_split` ends within `length(S) + 1` iterations, each of which
appends one element. -/
theorem split_loop_terminates (S D : List Nat) :
    (∀ pre R : List Nat, 0 ∉ R →
      (collect_element (pre ++ R ++ [0]) pre.length D).1.next = 1 →
        pre.length < (collect_element (pre ++ R ++ [0]) pre.length D).1.nx ∧
        (collect_element (pre ++ R ++ [0]) pre.length D).1.nx ≤ pre.length + R.length ∧
        ∃ pre1 R1 : List Nat,
          (collect_element (pre ++ R ++ [0]) pre.length D).2 = pre1 ++ R1 ++ [0] ∧
          pre1.length = (collect_element (pre ++ R ++ [0]) pre.length D).1.nx ∧
          0 ∉ R1) ∧
    (∃ list : List (Option (List Nat)),
      str_split (some S) (some D) = some (some (list ++ [none])) ∧
      0 < list.length ∧ list.length ≤ strlen S + 1) :=
  ⟨fun pre R hR hnext => collect_element_advances pre R D hR hnext, str_split_iterations S D⟩

/-- C22, at `S = "a,b,c"` and `D = ","`: the first call of `collect_element`, at
cursor 0, reports `next = 1` and returns the cursor 2. -/
theorem split_loop_terminates_witness :
    (collect_element ([] ++ [97, 44, 98, 44, 99] ++ [0]) ([] : List Nat).length [44]).1.next = 1 ∧
    ([] : List Nat).length
      < (collect_element ([] ++ [97, 44, 98, 44, 99] ++ [0]) ([] : List Nat).length [44]).1.nx ∧
    (collect_element ([] ++ [97, 44, 98, 44, 99] ++ [0]) ([] : List Nat).length [44]).1.nx
      ≤ ([] : List Nat).length + [97, 44, 98, 44, 99].length :=
  ⟨by decide,
   ((split_loop_terminates [97, 44, 98, 44, 99] [44]).1 [] [97, 44, 98, 44, 99] (by decide)
      (by decide)).1,
   ((split_loop_terminates [97, 44, 98, 44, 99] [44]).1 [] [97, 44, 98, 44, 99] (by decide)
      (by decide)).2.1⟩

end Functools
